import Mathlib

/-!
Verification of the rerecast tiled navmesh orchestrator and of the
compact-heightfield algorithms (chamfer distance field, box blur,
convex-volume area marking) against their natural-language specification.

Modelling conventions:
* `f32` values are modelled by exact rationals (`ℚ`); the rounding used by
  Rust `as` casts from floats (truncation toward zero, saturating at the
  integer type's bounds) is made explicit.
* Machine integers are modelled by `Nat`/`Int`; `u16` addition in the chamfer
  relaxation is modelled with its wrap-around (`% 65536`), which is the one
  place in the embedded code where an overflow is reachable.
* Structures whose Rust declarations are not part of the analysed sources
  (`CompactHeightfield`, `Config`, `Aabb2d`, the direction-offset tables, the
  area-type walkability test) are modelled from the specification text; each
  such definition is marked `Modelled from the spec`.
-/

namespace Rerecast

/-! ### Rust numeric conversions -/

/-- Floor of a rational number, computed on numerator and denominator. -/
def ratFloor (q : ℚ) : Int :=
  if 0 ≤ q.num then ((q.num.toNat / q.den : Nat) : Int)
  else -(((((-q.num).toNat) + q.den - 1) / q.den : Nat) : Int)

/-- Ceiling of a rational number.  Models `ops::ceil` from the spec
(`tiles_x = ceil(world_width / tile_world_size)`). -/
def ratCeil (q : ℚ) : Int := -(ratFloor (-q))

/-- Truncation toward zero, the rounding used by Rust `as` float-to-int casts. -/
def ratTrunc (q : ℚ) : Int :=
  if 0 ≤ q.num then ((q.num.toNat / q.den : Nat) : Int)
  else -((((-q.num).toNat / q.den : Nat) : Int))

/-- Rust `as u16` applied to a float value: truncate toward zero, saturate
into `[0, 65535]`. -/
def satU16 (n : Int) : Nat := (min (max n 0) 65535).toNat

/-- Rust `as i32` applied to a float value: truncate toward zero, saturate
into the `i32` range. -/
def castI32 (q : ℚ) : Int := min (max (ratTrunc q) (-(2 ^ 31))) (2 ^ 31 - 1)

/-- Rust `as u16` applied to an integer (wrapping conversion). -/
def wrap16 (n : Int) : Nat := (n % 65536).toNat

/-- On integers the rational floor is the identity. -/
theorem ratFloor_intCast (n : Int) : ratFloor ((n : Int) : ℚ) = n := by
  unfold ratFloor
  rw [Rat.num_intCast, Rat.den_intCast]
  split <;> rename_i h <;> simp only [Nat.add_sub_cancel, Nat.div_one] <;> omega

/-- On integers the rational ceiling is the identity. -/
theorem ratCeil_intCast (n : Int) : ratCeil ((n : Int) : ℚ) = n := by
  unfold ratCeil
  rw [show (-((n : Int) : ℚ)) = (((-n : Int)) : ℚ) by push_cast; ring, ratFloor_intCast, neg_neg]

/-! ### Geometry primitives -/

/-- Two-dimensional vector (glam `Vec2`); for convex volumes `x` is the world
X axis and `y` the world Z axis. -/
structure Vec2 where
  x : ℚ
  y : ℚ
deriving DecidableEq, Inhabited

/-- Three-dimensional vector (glam `Vec3`). -/
structure Vec3 where
  x : ℚ
  y : ℚ
  z : ℚ
deriving DecidableEq, Inhabited

/-- Axis-aligned 3D bounding box. -/
structure Aabb3d where
  min : Vec3
  max : Vec3
deriving DecidableEq, Inhabited

/-- Axis-aligned 2D bounding box over the XZ plane. -/
structure Aabb2d where
  min : Vec2
  max : Vec2
deriving DecidableEq, Inhabited

/-- Modelled from the spec: `Aabb2d::from_verts` (declared outside the
analysed sources) returns the componentwise bounding box of a vertex list and
`None` for the empty list ("Empty vertex list is a no-op volume"). -/
def Aabb2d.from_verts (verts : List Vec2) : Option Aabb2d :=
  match verts with
  | [] => none
  | v :: vs =>
    some (vs.foldl
      (fun acc w =>
        ⟨⟨Min.min acc.min.x w.x, Min.min acc.min.y w.y⟩,
         ⟨Max.max acc.max.x w.x, Max.max acc.max.y w.y⟩⟩)
      ⟨v, v⟩)

/-- Modelled from the spec: `Aabb2d::extend_y` (declared outside the analysed
sources) lifts an XZ box to 3D with the given Y range. -/
def Aabb2d.extend_y (a : Aabb2d) (min_y max_y : ℚ) : Aabb3d :=
  ⟨⟨a.min.x, min_y, a.min.y⟩, ⟨a.max.x, max_y, a.max.y⟩⟩

/-- Modelled from the spec: area types are 8-bit labels, `NULL_AREA = 0` is
not walkable, and "Ordering `a > NULL_AREA` means walkable". -/
def area_is_walkable (a : Nat) : Bool := a != 0

/-! ### Tiled navmesh orchestrator (src/crates/rerecast/src/tiled_navmesh.rs) -/

/-- A tile coordinate on the XZ plane (`TileCoord`, `u16` coordinates). -/
structure TileCoord where
  x : Nat
  z : Nat
deriving DecidableEq, Inhabited

/-- Modelled from the spec: the fields of `Config` (declared outside the
analysed sources) that the tiled orchestrator reads.  The remaining spec
fields are consumed only by pipeline stages outside the analysed sources. -/
structure Config where
  aabb : Aabb3d
  cell_size : ℚ
  cell_height : ℚ
  tile_size : Nat
  border_size : Nat
deriving DecidableEq, Inhabited

/-- Errors of tiled navmesh generation (`TiledNavmeshError`). -/
inductive TiledNavmeshError where
  | heightfieldBuild (msg : String)
  | rasterization (msg : String)
  | compactHeightfield (msg : String)
  | regionBuild (msg : String)
  | polygonMesh (msg : String)
  | detailMesh (msg : String)
  | tilingNotEnabled
deriving DecidableEq, Inhabited

/-- Configuration for tiled navmesh generation (`TiledNavmeshConfig`). -/
structure TiledNavmeshConfig where
  config : Config
  tiles_x : Nat
  tiles_z : Nat
deriving DecidableEq, Inhabited

/-- A single tile of a navmesh (`NavmeshTile`).  The polygon-mesh and
detail-mesh payload types are parameters because their Rust declarations are
outside the analysed sources. -/
structure NavmeshTile (π δ : Type) where
  coord : TileCoord
  poly_mesh : π
  detail_mesh : δ
deriving DecidableEq

instance {ε α : Type} [DecidableEq ε] [DecidableEq α] : DecidableEq (Except ε α) := fun x y =>
  match x, y with
  | .ok a, .ok b =>
    if h : a = b then isTrue (by rw [h]) else isFalse (fun hh => h (Except.ok.inj hh))
  | .error a, .error b =>
    if h : a = b then isTrue (by rw [h]) else isFalse (fun hh => h (Except.error.inj hh))
  | .ok _, .error _ => isFalse (fun hh => Except.noConfusion hh)
  | .error _, .ok _ => isFalse (fun hh => Except.noConfusion hh)

/-- `TiledNavmeshConfig::new`: rejects `tile_size == 0` and non-positive
`tile_world_size`, otherwise computes the tile grid dimensions by
`ceil(world_extent / tile_world_size) as u16`. -/
def TiledNavmeshConfig.new (config : Config) : Except TiledNavmeshError TiledNavmeshConfig :=
  if config.tile_size = 0 then .error .tilingNotEnabled
  else
    let world_width := config.aabb.max.x - config.aabb.min.x
    let world_height := config.aabb.max.z - config.aabb.min.z
    let tile_world_size := (config.tile_size : ℚ) * config.cell_size
    if tile_world_size ≤ 0 then .error .tilingNotEnabled
    else
      .ok ⟨config, satU16 (ratCeil (world_width / tile_world_size)),
        satU16 (ratCeil (world_height / tile_world_size))⟩

/-- `TiledNavmeshConfig::tile_count`. -/
def TiledNavmeshConfig.tile_count (tc : TiledNavmeshConfig) : Nat :=
  tc.tiles_x * tc.tiles_z

/-- `TiledNavmeshConfig::tile_coords`: row-major scatter order, `z` outer and
`x` inner. -/
def TiledNavmeshConfig.tile_coords (tc : TiledNavmeshConfig) : List TileCoord :=
  (List.range tc.tiles_z).flatMap (fun z => (List.range tc.tiles_x).map (fun x => ⟨x, z⟩))

/-- `TiledNavmeshConfig::tile_aabb`: the tile's world cell expanded by the
border on all four XZ sides, with the world's Y range. -/
def TiledNavmeshConfig.tile_aabb (tc : TiledNavmeshConfig) (coord : TileCoord) : Aabb3d :=
  let tile_world_size := (tc.config.tile_size : ℚ) * tc.config.cell_size
  let border_world_size := (tc.config.border_size : ℚ) * tc.config.cell_size
  let min_x := tc.config.aabb.min.x + (coord.x : ℚ) * tile_world_size - border_world_size
  let max_x := min_x + tile_world_size + 2 * border_world_size
  let min_z := tc.config.aabb.min.z + (coord.z : ℚ) * tile_world_size - border_world_size
  let max_z := min_z + tile_world_size + 2 * border_world_size
  ⟨⟨min_x, tc.config.aabb.min.y, min_z⟩, ⟨max_x, tc.config.aabb.max.y, max_z⟩⟩

/-- Modelled from the spec: the body of `TiledNavmeshConfig::generate_tile`
runs the seven-stage pipeline (heightfield build, rasterization, compact
heightfield, erosion, volume marking, distance field, regions, contours,
polygon mesh, detail mesh), whose implementations are outside the analysed
sources.  It is abstracted by a function `g` from the tile coordinate to the
pipeline result (the dependence on the `TriMesh` and on the `Config` is
inside `g`); on success the source wraps the result as
`NavmeshTile { coord, poly_mesh, detail_mesh }`. -/
def generateTile {π δ : Type} (g : TileCoord → Except TiledNavmeshError (π × δ))
    (coord : TileCoord) : Except TiledNavmeshError (NavmeshTile π δ) :=
  match g coord with
  | .error e => .error e
  | .ok pd => .ok ⟨coord, pd.1, pd.2⟩

/-- Rust `Iterator::collect::<Result<Vec<_>, _>>`: left-to-right traversal
that stops at the first error and otherwise preserves order. -/
def collectResults {ι ε α : Type} (l : List ι) (f : ι → Except ε α) : Except ε (List α) :=
  match l with
  | [] => .ok []
  | i :: rest =>
    match f i with
    | .error e => .error e
    | .ok a =>
      match collectResults rest f with
      | .error e => .error e
      | .ok as => .ok (a :: as)

/-- `TiledNavmeshConfig::generate_tiles_sequential`. -/
def TiledNavmeshConfig.generate_tiles_sequential {π δ : Type} (tc : TiledNavmeshConfig)
    (g : TileCoord → Except TiledNavmeshError (π × δ)) :
    Except TiledNavmeshError (List (NavmeshTile π δ)) :=
  collectResults tc.tile_coords (generateTile g)

/-- Modelled from the spec: the semantics of rayon's parallel
`collect::<Result<Vec<_>, _>>` used by `generate_tiles_parallel`.  On an
all-`Ok` input it produces the results in scatter order; otherwise it
short-circuits and returns the error of some failing element — which failing
element wins depends on scheduling, so the outcome is a relation. -/
def parCollectRel {ε α : Type} (rs : List (Except ε α)) (out : Except ε (List α)) : Prop :=
  (∃ l, out = .ok l ∧ rs = l.map .ok) ∨ (∃ e, out = .error e ∧ .error e ∈ rs)

/-- `TiledNavmeshConfig::generate_tiles_parallel` as a relation between the
inputs and the possible outcomes. -/
def TiledNavmeshConfig.generate_tiles_parallel_rel {π δ : Type} (tc : TiledNavmeshConfig)
    (g : TileCoord → Except TiledNavmeshError (π × δ))
    (out : Except TiledNavmeshError (List (NavmeshTile π δ))) : Prop :=
  parCollectRel (tc.tile_coords.map (generateTile g)) out

/-- The errors of a list of fallible results, in input order. -/
def errorsOf {ι ε α : Type} (l : List ι) (f : ι → Except ε α) : List ε :=
  l.filterMap (fun i =>
    match f i with
    | .error e => some e
    | .ok _ => none)

/-- The errors of the failing tiles, in scatter order. -/
def tile_failures {π δ : Type} (tc : TiledNavmeshConfig)
    (g : TileCoord → Except TiledNavmeshError (π × δ)) : List TiledNavmeshError :=
  errorsOf tc.tile_coords (generateTile g)

/-! ### Helper lemmas for the orchestrator -/

/-- Sequential `collect` succeeds exactly on all-`Ok` inputs, in order. -/
theorem collectResults_ok_map {ι ε α : Type} (f : ι → Except ε α) :
    ∀ (l : List ι) (ts : List α),
      collectResults l f = .ok ts → l.map f = ts.map Except.ok := by
  intro l
  induction l with
  | nil =>
    intro ts h
    simp only [collectResults] at h
    cases h
    simp
  | cons i rest ih =>
    intro ts h
    simp only [collectResults] at h
    cases hf : f i with
    | error e => rw [hf] at h; cases h
    | ok a =>
      rw [hf] at h
      cases hc : collectResults rest f with
      | error e => rw [hc] at h; cases h
      | ok as =>
        rw [hc] at h
        cases h
        simp only [List.map_cons, hf]
        rw [ih as hc]

/-- Converse: an all-`Ok` input makes the sequential `collect` succeed. -/
theorem collectResults_of_map_ok {ι ε α : Type} (f : ι → Except ε α) :
    ∀ (l : List ι) (ts : List α),
      l.map f = ts.map Except.ok → collectResults l f = .ok ts := by
  intro l
  induction l with
  | nil =>
    intro ts h
    simp only [List.map_nil] at h
    cases ts with
    | nil => rfl
    | cons t ts => simp at h
  | cons i rest ih =>
    intro ts h
    cases ts with
    | nil => simp at h
    | cons t ts =>
      simp only [List.map_cons, List.cons.injEq] at h
      simp only [collectResults, h.1, ih ts h.2]

/-- The sequential `collect` reports the first error of the input order. -/
theorem collectResults_error_of_head {ι ε α : Type} (f : ι → Except ε α) :
    ∀ (l : List ι) (e : ε),
      (errorsOf l f).head? = some e → collectResults l f = .error e := by
  intro l
  induction l with
  | nil => intro e h; simp [errorsOf] at h
  | cons i rest ih =>
    intro e h
    unfold errorsOf at h
    rw [List.filterMap_cons] at h
    cases hf : f i with
    | error e0 =>
      rw [hf] at h
      simp only [List.head?_cons, Option.some.injEq] at h
      subst h
      simp only [collectResults, hf]
    | ok a =>
      rw [hf] at h
      simp only [collectResults, hf]
      rw [ih e h]

/-- On success a generated tile carries the coordinate it was generated for. -/
theorem generateTile_ok_coord {π δ : Type} (g : TileCoord → Except TiledNavmeshError (π × δ))
    (c : TileCoord) (t : NavmeshTile π δ) (h : generateTile g c = .ok t) : t.coord = c := by
  unfold generateTile at h
  cases hg : g c with
  | error e => rw [hg] at h; cases h
  | ok pd => rw [hg] at h; cases h; rfl

/-- Closed form of the row-major scatter order. -/
theorem rowMajor_coords (tx tz : Nat) :
    (List.range tz).flatMap (fun z => (List.range tx).map (fun x => (⟨x, z⟩ : TileCoord))) =
      (List.range (tx * tz)).map (fun j => ⟨j % tx, j / tx⟩) := by
  rcases Nat.eq_zero_or_pos tx with h0 | hpos
  · subst h0
    simp
  · induction tz with
    | zero => simp
    | succ n ihn =>
      rw [List.range_succ, List.flatMap_append, ihn, Nat.mul_succ, List.range_add,
        List.map_append]
      congr 1
      · simp only [List.flatMap_cons, List.flatMap_nil, List.append_nil, List.map_map]
        refine List.map_congr_left ?_
        intro x hx
        rw [List.mem_range] at hx
        simp only [Function.comp_apply]
        rw [Nat.mul_add_mod, Nat.mod_eq_of_lt hx, Nat.mul_add_div hpos,
          Nat.div_eq_of_lt hx, Nat.add_zero]


/-! ### Concrete inputs used by witnesses and counterexamples -/

/-- A 1×1-tile configuration accepted by `TiledNavmeshConfig::new`. -/
def cfgOne : Config := ⟨⟨⟨0, 0, 0⟩, ⟨1, 1, 1⟩⟩, 1, 1, 1, 0⟩

/-- The tiled configuration built from `cfgOne`. -/
def tcOne : TiledNavmeshConfig := ⟨cfgOne, 1, 1⟩

/-- A pipeline stub that succeeds on every tile. -/
def gOk : TileCoord → Except TiledNavmeshError (Unit × Unit) := fun _ => .ok ((), ())

/-- A 2×1-tile configuration accepted by `TiledNavmeshConfig::new`. -/
def cfgTwo : Config := ⟨⟨⟨0, 0, 0⟩, ⟨2, 1, 1⟩⟩, 1, 1, 1, 0⟩

/-- The tiled configuration built from `cfgTwo`. -/
def tcTwo : TiledNavmeshConfig := ⟨cfgTwo, 2, 1⟩

/-- A pipeline stub that fails on every tile, with an error naming the tile. -/
def gFail : TileCoord → Except TiledNavmeshError (Unit × Unit) := fun c =>
  .error (if c.x = 0 then .heightfieldBuild "a" else .heightfieldBuild "b")

/-- A configuration whose world is 100000 tiles wide, accepted by
`TiledNavmeshConfig::new`; every involved `f32` value is exactly
representable, so the exact-rational model agrees with the float code. -/
def cfgBig : Config := ⟨⟨⟨0, 0, 0⟩, ⟨100000, 1, 1⟩⟩, 1, 1, 1, 0⟩

/-- Evaluation of `TiledNavmeshConfig::new` on `cfgOne`. -/
theorem new_cfgOne : TiledNavmeshConfig.new cfgOne = .ok tcOne := by
  simp only [TiledNavmeshConfig.new, cfgOne, tcOne]
  norm_num
  rw [show ((1 : ℚ)) = (((1 : Int)) : ℚ) by norm_num, ratCeil_intCast]
  decide

/-- Evaluation of `TiledNavmeshConfig::new` on `cfgTwo`. -/
theorem new_cfgTwo : TiledNavmeshConfig.new cfgTwo = .ok tcTwo := by
  simp only [TiledNavmeshConfig.new, cfgTwo, tcTwo]
  norm_num
  rw [show ((2 : ℚ)) = (((2 : Int)) : ℚ) by norm_num,
    show ((1 : ℚ)) = (((1 : Int)) : ℚ) by norm_num, ratCeil_intCast, ratCeil_intCast]
  decide

/-- Evaluation of `TiledNavmeshConfig::new` on `cfgBig`: the `as u16` cast
saturates the X dimension at 65535. -/
theorem new_cfgBig : TiledNavmeshConfig.new cfgBig = .ok ⟨cfgBig, 65535, 1⟩ := by
  simp only [TiledNavmeshConfig.new, cfgBig]
  norm_num
  rw [show ((100000 : ℚ)) = (((100000 : Int)) : ℚ) by norm_num,
    show ((1 : ℚ)) = (((1 : Int)) : ℚ) by norm_num, ratCeil_intCast, ratCeil_intCast]
  decide

/-! ### Claims about the orchestrator -/

/-- C1: for every `Config` accepted by `TiledNavmeshConfig::new` and every
tile pipeline, the parallel orchestrator can return a successful `NavmeshTile`
sequence exactly when the sequential one returns it — so on success the two
variants produce element-wise equal sequences (same length, same coords, same
`poly_mesh` and `detail_mesh` at every index). -/
theorem C1_parallel_sequential_agree {π δ : Type} (config : Config) (tc : TiledNavmeshConfig)
    (h : TiledNavmeshConfig.new config = .ok tc)
    (g : TileCoord → Except TiledNavmeshError (π × δ)) (ts : List (NavmeshTile π δ)) :
    tc.generate_tiles_parallel_rel g (.ok ts) ↔ tc.generate_tiles_sequential g = .ok ts := by
  clear h
  constructor
  · rintro (⟨l, hout, hmap⟩ | ⟨e, hout, -⟩)
    · cases hout
      exact collectResults_of_map_ok _ _ _ hmap
    · cases hout
  · intro hseq
    exact Or.inl ⟨ts, rfl, collectResults_ok_map _ _ _ hseq⟩

/-- C1 witness: at a concrete accepted configuration and an all-succeeding
pipeline, the parallel outcome equals the sequential one. -/
theorem C1_witness :
    TiledNavmeshConfig.generate_tiles_parallel_rel tcOne gOk (.ok [⟨⟨0, 0⟩, (), ()⟩]) :=
  (C1_parallel_sequential_agree cfgOne tcOne new_cfgOne gOk [⟨⟨0, 0⟩, (), ()⟩]).mpr (by decide)

/-- C2 (amended): when at least one tile fails, both variants return an
error; the sequential variant returns the error of the first failing tile in
scatter order, while the parallel variant returns the error of some failing
tile, not necessarily the first. -/
theorem C2_first_error_amended {π δ : Type} (config : Config) (tc : TiledNavmeshConfig)
    (h : TiledNavmeshConfig.new config = .ok tc)
    (g : TileCoord → Except TiledNavmeshError (π × δ)) (e : TiledNavmeshError)
    (hf : (tile_failures tc g).head? = some e) :
    tc.generate_tiles_sequential g = .error e ∧
      ∀ out, tc.generate_tiles_parallel_rel g out →
        ∃ e', out = .error e' ∧ e' ∈ tile_failures tc g := by
  clear h
  unfold tile_failures at hf ⊢
  constructor
  · exact collectResults_error_of_head _ _ _ hf
  · rintro out (⟨l, hout, hmap⟩ | ⟨e', hout, hmem⟩)
    · exfalso
      have hnil : errorsOf tc.tile_coords (generateTile g) = [] := by
        unfold errorsOf
        rw [List.filterMap_eq_nil_iff]
        intro c hc
        have hmem2 : generateTile g c ∈ tc.tile_coords.map (generateTile g) :=
          List.mem_map_of_mem _ hc
        rw [hmap] at hmem2
        rcases List.mem_map.mp hmem2 with ⟨t, -, ht⟩
        rw [← ht]
      rw [hnil] at hf
      cases hf
    · refine ⟨e', hout, ?_⟩
      rcases List.mem_map.mp hmem with ⟨c, hc, hce⟩
      unfold errorsOf
      exact List.mem_filterMap.mpr ⟨c, hc, by rw [hce]⟩

/-- C2 witness: at a concrete accepted configuration whose tiles all fail,
the sequential variant returns the first failure. -/
theorem C2_witness :
    TiledNavmeshConfig.generate_tiles_sequential tcTwo gFail =
      .error (.heightfieldBuild "a") :=
  (C2_first_error_amended cfgTwo tcTwo new_cfgTwo gFail (.heightfieldBuild "a") (by decide)).1

/-- C2 counterexample: with two failing tiles the parallel relation admits
the second tile's error even though the first failing tile (in scatter order)
carries a different error, so the claim that both variants return the first
failing tile's error is false as stated. -/
theorem C2_counterexample :
    TiledNavmeshConfig.new cfgTwo = .ok tcTwo ∧
      TiledNavmeshConfig.generate_tiles_parallel_rel tcTwo gFail
        (.error (.heightfieldBuild "b")) ∧
      (tile_failures tcTwo gFail).head? = some (.heightfieldBuild "a") ∧
      (TiledNavmeshError.heightfieldBuild "b") ≠ (TiledNavmeshError.heightfieldBuild "a") :=
  ⟨new_cfgTwo, Or.inr ⟨.heightfieldBuild "b", rfl, by decide⟩, by decide, by decide⟩

/-- C3 (amended): for an accepted config, `tiles_x` and `tiles_z` are the
ceilings of the world extents over the tile world size, truncated by the
saturating `as u16` cast; and every successful sequential run returns exactly
`tiles_x * tiles_z` tiles in scatter order, the `j`-th with coordinate
`(j mod tiles_x, j div tiles_x)`. -/
theorem C3_grid_dimensions_and_order (config : Config) (tc : TiledNavmeshConfig)
    (h : TiledNavmeshConfig.new config = .ok tc) :
    tc.tiles_x = satU16 (ratCeil ((config.aabb.max.x - config.aabb.min.x) /
        ((config.tile_size : ℚ) * config.cell_size))) ∧
    tc.tiles_z = satU16 (ratCeil ((config.aabb.max.z - config.aabb.min.z) /
        ((config.tile_size : ℚ) * config.cell_size))) ∧
    ∀ {π δ : Type} (g : TileCoord → Except TiledNavmeshError (π × δ))
      (ts : List (NavmeshTile π δ)),
        tc.generate_tiles_sequential g = .ok ts →
        ts.length = tc.tiles_x * tc.tiles_z ∧
        ∀ j (hj : j < ts.length),
          (ts.get ⟨j, hj⟩).coord = ⟨j % tc.tiles_x, j / tc.tiles_x⟩ := by
  by_cases h0 : config.tile_size = 0
  · simp [TiledNavmeshConfig.new, h0] at h
  · by_cases h1 : (config.tile_size : ℚ) * config.cell_size ≤ 0
    · simp [TiledNavmeshConfig.new, h0, h1] at h
    · simp only [TiledNavmeshConfig.new, h0, if_false, h1, ite_false,
        Except.ok.injEq] at h
      subst h
      refine ⟨rfl, rfl, ?_⟩
      intro π δ g ts hseq
      have hmap := collectResults_ok_map _ _ _ hseq
      have hcoords := rowMajor_coords
        (satU16 (ratCeil ((config.aabb.max.x - config.aabb.min.x) /
          ((config.tile_size : ℚ) * config.cell_size))))
        (satU16 (ratCeil ((config.aabb.max.z - config.aabb.min.z) /
          ((config.tile_size : ℚ) * config.cell_size))))
      set tx := satU16 (ratCeil ((config.aabb.max.x - config.aabb.min.x) /
        ((config.tile_size : ℚ) * config.cell_size))) with htx
      set tz := satU16 (ratCeil ((config.aabb.max.z - config.aabb.min.z) /
        ((config.tile_size : ℚ) * config.cell_size))) with htz
      have hcoords2 : (TiledNavmeshConfig.mk config tx tz).tile_coords =
          (List.range (tx * tz)).map (fun j => (⟨j % tx, j / tx⟩ : TileCoord)) := hcoords
      have hlen : ts.length = tx * tz := by
        have hl := congrArg List.length hmap
        simp only [List.length_map] at hl
        rw [← hl, hcoords2, List.length_map, List.length_range]
      refine ⟨hlen, ?_⟩
      intro j hj
      have hjr : j < tx * tz := by rw [← hlen]; exact hj
      have hjc : j < (TiledNavmeshConfig.mk config tx tz).tile_coords.length := by
        rw [hcoords2, List.length_map, List.length_range]
        exact hjr
      have hq := congrArg (fun l => l[j]?) hmap
      simp only [List.getElem?_map] at hq
      rw [List.getElem?_eq_getElem hjc, List.getElem?_eq_getElem hj] at hq
      simp only [Option.map_some'] at hq
      have hok : generateTile g ((TiledNavmeshConfig.mk config tx tz).tile_coords[j]) =
          .ok (ts[j]) := Option.some.inj hq
      have hcj : (TiledNavmeshConfig.mk config tx tz).tile_coords[j] =
          (⟨j % tx, j / tx⟩ : TileCoord) := by
        have hjr2 : j < (List.range (tx * tz)).length := by
          rw [List.length_range]; exact hjr
        simp [hcoords2]
      rw [hcj] at hok
      simpa [List.get_eq_getElem] using generateTile_ok_coord _ _ _ hok

/-- C3 witness: a concrete accepted configuration at which the amended
dimension formula is checked. -/
theorem C3_witness :
    tcOne.tiles_x = satU16 (ratCeil ((cfgOne.aabb.max.x - cfgOne.aabb.min.x) /
        ((cfgOne.tile_size : ℚ) * cfgOne.cell_size))) :=
  (C3_grid_dimensions_and_order cfgOne tcOne new_cfgOne).1

/-- C3 counterexample: a configuration accepted by `new` whose world is
100000 tile sizes wide; `ceil(world_width / tile_world_size) = 100000` but
`tiles_x = 65535` because the `as u16` cast saturates, so the claimed
equality `tiles_x = ceil(...)` is false as stated. -/
theorem C3_counterexample :
    TiledNavmeshConfig.new cfgBig = .ok ⟨cfgBig, 65535, 1⟩ ∧
      ratCeil ((cfgBig.aabb.max.x - cfgBig.aabb.min.x) /
        ((cfgBig.tile_size : ℚ) * cfgBig.cell_size)) = 100000 ∧
      ((65535 : Nat) : Int) ≠ 100000 := by
  refine ⟨new_cfgBig, ?_, by decide⟩
  have harg : ((cfgBig.aabb.max.x - cfgBig.aabb.min.x) /
      ((cfgBig.tile_size : ℚ) * cfgBig.cell_size)) = (((100000 : Int)) : ℚ) := by
    norm_num [cfgBig]
  rw [harg, ratCeil_intCast]

/-- C4: `TiledNavmeshConfig::new` returns `Err(TilingNotEnabled)` exactly
when `tile_size == 0` or `tile_size as f32 * cell_size ≤ 0`; otherwise it
returns `Ok` carrying the given config. -/
theorem C4_new_tiling_not_enabled (config : Config) :
    (TiledNavmeshConfig.new config = .error .tilingNotEnabled ↔
      (config.tile_size = 0 ∨ (config.tile_size : ℚ) * config.cell_size ≤ 0)) ∧
    (¬(config.tile_size = 0 ∨ (config.tile_size : ℚ) * config.cell_size ≤ 0) →
      ∃ tc, TiledNavmeshConfig.new config = .ok tc ∧ tc.config = config) := by
  unfold TiledNavmeshConfig.new
  by_cases h0 : config.tile_size = 0
  · simp [h0]
  · by_cases h1 : (config.tile_size : ℚ) * config.cell_size ≤ 0
    · simp [h0, h1]
    · constructor
      · simp [h0, h1]
      · intro _
        simp only [h0, if_false, h1]
        exact ⟨_, rfl, rfl⟩

/-- C4 witness: a concrete config with positive tile world size is accepted
and the returned value carries the given config. -/
theorem C4_witness : ∃ tc, TiledNavmeshConfig.new cfgOne = .ok tc ∧ tc.config = cfgOne :=
  (C4_new_tiling_not_enabled cfgOne).2 (by norm_num [cfgOne])

/-- The tile AABB exactly as the claim states it:
`min = (aabb.min.x + tx·tile_size·cell_size − border_size·cell_size, aabb.min.y, …)` and
`max = (min.x + tile_size·cell_size + 2·border_size·cell_size, aabb.max.y, …)`. -/
def tile_aabb_spec (tc : TiledNavmeshConfig) (coord : TileCoord) : Aabb3d :=
  let cfg := tc.config
  let min_x := cfg.aabb.min.x + (coord.x : ℚ) * ((cfg.tile_size : ℚ) * cfg.cell_size) -
    (cfg.border_size : ℚ) * cfg.cell_size
  let min_z := cfg.aabb.min.z + (coord.z : ℚ) * ((cfg.tile_size : ℚ) * cfg.cell_size) -
    (cfg.border_size : ℚ) * cfg.cell_size
  ⟨⟨min_x, cfg.aabb.min.y, min_z⟩,
   ⟨min_x + (cfg.tile_size : ℚ) * cfg.cell_size + 2 * ((cfg.border_size : ℚ) * cfg.cell_size),
    cfg.aabb.max.y,
    min_z + (cfg.tile_size : ℚ) * cfg.cell_size + 2 * ((cfg.border_size : ℚ) * cfg.cell_size)⟩⟩

/-- C9: `tile_aabb` computes exactly the claimed box — the tile's world cell
expanded by the border on all four XZ sides, with the world's Y range; in
particular its X extent is `(tile_size + 2·border_size)·cell_size`. -/
theorem C9_tile_aabb (tc : TiledNavmeshConfig) (coord : TileCoord) :
    tc.tile_aabb coord = tile_aabb_spec tc coord ∧
    (tc.tile_aabb coord).max.x - (tc.tile_aabb coord).min.x =
      ((tc.config.tile_size : ℚ) + 2 * (tc.config.border_size : ℚ)) * tc.config.cell_size ∧
    (tc.tile_aabb coord).min.y = tc.config.aabb.min.y ∧
    (tc.tile_aabb coord).max.y = tc.config.aabb.max.y := by
  refine ⟨rfl, ?_, rfl, rfl⟩
  show tc.config.aabb.min.x + (coord.x : ℚ) * ((tc.config.tile_size : ℚ) * tc.config.cell_size) -
      (tc.config.border_size : ℚ) * tc.config.cell_size +
      (tc.config.tile_size : ℚ) * tc.config.cell_size +
      2 * ((tc.config.border_size : ℚ) * tc.config.cell_size) -
      (tc.config.aabb.min.x + (coord.x : ℚ) * ((tc.config.tile_size : ℚ) * tc.config.cell_size) -
        (tc.config.border_size : ℚ) * tc.config.cell_size) = _
  ring

/-! ### Compact heightfield data model (spec §3) -/

/-- Modelled from the spec: a compact-heightfield cell `{index, count}`
pointing into the flat `spans` array (the struct declaration is outside the
analysed sources). -/
structure CompactCell where
  index : Nat
  count : Nat
deriving DecidableEq, Inhabited

/-- Modelled from the spec: a compact span `{y, h, connections : 4 ×
Option}`; each connection is a relative index into the neighbour column's
spans (the struct declaration is outside the analysed sources). -/
structure CompactSpan where
  y : Nat
  h : Nat
  con0 : Option Nat
  con1 : Option Nat
  con2 : Option Nat
  con3 : Option Nat
deriving DecidableEq, Inhabited

/-- `span.con(dir)` of the source. -/
def CompactSpan.con (s : CompactSpan) (dir : Nat) : Option Nat :=
  match dir with
  | 0 => s.con0
  | 1 => s.con1
  | 2 => s.con2
  | 3 => s.con3
  | _ => none

/-- Modelled from the spec: the `CompactHeightfield` state read and written
by the analysed sources (the struct declaration is outside them). -/
structure CompactHeightfield where
  width : Nat
  height : Nat
  aabb : Aabb3d
  cell_size : ℚ
  cell_height : ℚ
  cells : List CompactCell
  spans : List CompactSpan
  areas : List Nat
  dist : List Nat
  max_distance : Nat
deriving DecidableEq, Inhabited

/-- Modelled from the spec: `dir_offset_x` under the fixed direction
convention `{0: -x, 1: +z, 2: +x, 3: -z}`. -/
def dir_offset_x (dir : Nat) : Int :=
  match dir with
  | 0 => -1
  | 2 => 1
  | _ => 0

/-- Modelled from the spec: `dir_offset_z` under the same convention. -/
def dir_offset_z (dir : Nat) : Int :=
  match dir with
  | 1 => 1
  | 3 => -1
  | _ => 0

/-- `self.cell_at(x, z)`, reading `cells[x + z * width]`. -/
def CompactHeightfield.cell_at (chf : CompactHeightfield) (x z : Nat) : CompactCell :=
  chf.cells.getD (x + z * chf.width) default

/-- Neighbour X coordinate `(x as i32 + dir_offset_x(dir)) as u16`. -/
def nb_x (x dir : Nat) : Nat := wrap16 ((x : Int) + dir_offset_x dir)

/-- Neighbour Z coordinate `(z as i32 + dir_offset_z(dir)) as u16`. -/
def nb_z (z dir : Nat) : Nat := wrap16 ((z : Int) + dir_offset_z dir)

/-- Index of the span connected in direction `dir`:
`cell_at(a_x, a_z).index() as usize + con as usize`. -/
def CompactHeightfield.con_index (chf : CompactHeightfield) (x z dir con : Nat) : Nat :=
  (chf.cell_at (nb_x x dir) (nb_z z dir)).index + con

/-- Span indices of the cell at `(x, z)`:
`cell.index() .. cell.index() + cell.count()`. -/
def CompactHeightfield.cellSpanIndices (chf : CompactHeightfield) (x z : Nat) : List Nat :=
  (List.range (chf.cell_at x z).count).map (fun k => (chf.cell_at x z).index + k)

/-- Row-major grid traversal `for z in 0..height { for x in 0..width }`. -/
def CompactHeightfield.gridPositions (chf : CompactHeightfield) : List (Nat × Nat) :=
  (List.range chf.height).flatMap (fun z => (List.range chf.width).map (fun x => (x, z)))

/-- The reverse traversal of pass 2,
`for z in (0..height).rev { for x in (0..width).rev }`. -/
def CompactHeightfield.gridPositionsRev (chf : CompactHeightfield) : List (Nat × Nat) :=
  (List.range chf.height).reverse.flatMap
    (fun z => (List.range chf.width).reverse.map (fun x => (x, z)))

/-- A grid traversal expanded to `(x, z, span index)` triples, in execution
order. -/
def CompactHeightfield.spanTriples (chf : CompactHeightfield)
    (positions : List (Nat × Nat)) : List (Nat × Nat × Nat) :=
  positions.flatMap (fun p => (chf.cellSpanIndices p.1 p.2).map (fun i => (p.1, p.2, i)))

/-! ### Distance field (src/crates/rerecast/src/watershed_distance_field.rs) -/

/-- The `connection_count` accumulation of the source: the number of
directions whose connected neighbour has the same area. -/
def CompactHeightfield.connection_count (chf : CompactHeightfield) (x z i : Nat) : Nat :=
  (List.range 4).foldl
    (fun cnt dir =>
      match (chf.spans.getD i default).con dir with
      | some con =>
        if chf.areas.getD i 0 = chf.areas.getD (chf.con_index x z dir con) 0 then cnt + 1
        else cnt
      | none => cnt)
    0

/-- One boundary-marking step: a span with fewer than 4 connected same-area
neighbours gets distance 0. -/
def CompactHeightfield.markBoundaryAt (chf : CompactHeightfield) (df : List Nat)
    (t : Nat × Nat × Nat) : List Nat :=
  if chf.connection_count t.1 t.2.1 t.2.2 < 4 then df.set t.2.2 0 else df

/-- Initialisation to `u16::MAX` plus the boundary-marking scan of
`calculate_distance_field`. -/
def CompactHeightfield.boundaryPhase (chf : CompactHeightfield) : List Nat :=
  (chf.spanTriples chf.gridPositions).foldl chf.markBoundaryAt
    (List.replicate chf.spans.length 65535)

/-- One relaxation of the source, `df[i] = min(df[i], df[a] + cost)`; the
addition is performed on `u16` and wraps. -/
def relax_u16 (df : List Nat) (i a cost : Nat) : List Nat :=
  df.set i (min (df.getD i 0) ((df.getD a 0 + cost) % 65536))

/-- The same relaxation in exact arithmetic (as the claim words it: relax
with cost 2 for axis steps and 3 for diagonal steps). -/
def relax_exact (df : List Nat) (i a cost : Nat) : List Nat :=
  df.set i (min (df.getD i 0) (df.getD a 0 + cost))

/-- The executed `u16` addition fits (no overflow). -/
def relax_ok (df : List Nat) (a cost : Nat) : Bool :=
  decide (df.getD a 0 + cost < 65536)

/-- The relaxations `(target index, cost)` executed by pass 1 for span `i`
at `(x, z)`: direction 0 then the diagonal `(-1,-1)` through the neighbour's
`con(3)`, then direction 3 and the diagonal `(+1,-1)` through the
neighbour's `con(2)`; the connections read no distances, so this list
depends only on the heightfield (source lines 118–153). -/
def CompactHeightfield.pass1Relaxations (chf : CompactHeightfield) (x z i : Nat) :
    List (Nat × Nat) :=
  (match (chf.spans.getD i default).con 0 with
   | some con =>
     let ax := nb_x x 0
     let az := nb_z z 0
     let aIndex := (chf.cell_at ax az).index + con
     (aIndex, 2) ::
       (match (chf.spans.getD aIndex default).con 3 with
        | some con2 => [((chf.cell_at (nb_x ax 3) (nb_z az 3)).index + con2, 3)]
        | none => [])
   | none => []) ++
  (match (chf.spans.getD i default).con 3 with
   | some con =>
     let ax := nb_x x 3
     let az := nb_z z 3
     let aIndex := (chf.cell_at ax az).index + con
     (aIndex, 2) ::
       (match (chf.spans.getD aIndex default).con 2 with
        | some con2 => [((chf.cell_at (nb_x ax 2) (nb_z az 2)).index + con2, 3)]
        | none => [])
   | none => [])

/-- The relaxations executed by pass 2: direction 2 with the diagonal
`(+1,+1)` through `con(1)`, then direction 1 with the diagonal `(-1,+1)`
through `con(0)` (source lines 158–199). -/
def CompactHeightfield.pass2Relaxations (chf : CompactHeightfield) (x z i : Nat) :
    List (Nat × Nat) :=
  (match (chf.spans.getD i default).con 2 with
   | some con =>
     let ax := nb_x x 2
     let az := nb_z z 2
     let aIndex := (chf.cell_at ax az).index + con
     (aIndex, 2) ::
       (match (chf.spans.getD aIndex default).con 1 with
        | some con2 => [((chf.cell_at (nb_x ax 1) (nb_z az 1)).index + con2, 3)]
        | none => [])
   | none => []) ++
  (match (chf.spans.getD i default).con 1 with
   | some con =>
     let ax := nb_x x 1
     let az := nb_z z 1
     let aIndex := (chf.cell_at ax az).index + con
     (aIndex, 2) ::
       (match (chf.spans.getD aIndex default).con 0 with
        | some con2 => [((chf.cell_at (nb_x ax 0) (nb_z az 0)).index + con2, 3)]
        | none => [])
   | none => [])

/-- All relaxation steps `(i, a, cost)` of a pass, in execution order. -/
def CompactHeightfield.passSteps (chf : CompactHeightfield)
    (positions : List (Nat × Nat)) (rlx : Nat → Nat → Nat → List (Nat × Nat)) :
    List (Nat × Nat × Nat) :=
  positions.flatMap (fun p =>
    (chf.cellSpanIndices p.1 p.2).flatMap (fun i =>
      (rlx p.1 p.2 i).map (fun ac => (i, ac.1, ac.2))))

/-- The relaxation steps of pass 1. -/
def CompactHeightfield.pass1Steps (chf : CompactHeightfield) : List (Nat × Nat × Nat) :=
  chf.passSteps chf.gridPositions chf.pass1Relaxations

/-- The relaxation steps of pass 2. -/
def CompactHeightfield.pass2Steps (chf : CompactHeightfield) : List (Nat × Nat × Nat) :=
  chf.passSteps chf.gridPositionsRev chf.pass2Relaxations

/-- Folding a list of relaxation steps with a relaxation function. -/
def relax_fold (relax : List Nat → Nat → Nat → Nat → List Nat)
    (steps : List (Nat × Nat × Nat)) (df : List Nat) : List Nat :=
  steps.foldl (fun d s => relax d s.1 s.2.1 s.2.2) df

/-- `CompactHeightfield::calculate_distance_field`, with the `u16` additions
wrapping as in the compiled code. -/
def CompactHeightfield.calculate_distance_field (chf : CompactHeightfield) : List Nat :=
  relax_fold relax_u16 chf.pass2Steps (relax_fold relax_u16 chf.pass1Steps chf.boundaryPhase)

/-- The boundary test as the claim words it: direction `dir` holds a
connected neighbour whose area equals the span's own. -/
def CompactHeightfield.connected_same_area (chf : CompactHeightfield) (x z i dir : Nat) : Bool :=
  match (chf.spans.getD i default).con dir with
  | some con => decide (chf.areas.getD i 0 = chf.areas.getD (chf.con_index x z dir con) 0)
  | none => false

/-- Boundary marking as the claim words it: a span is set to 0 exactly when
it has fewer than 4 connected neighbours of equal area. -/
def CompactHeightfield.boundaryReferenceAt (chf : CompactHeightfield) (df : List Nat)
    (t : Nat × Nat × Nat) : List Nat :=
  if (List.range 4).countP (chf.connected_same_area t.1 t.2.1 t.2.2) < 4 then
    df.set t.2.2 0
  else df

/-- The boundary phase of the chamfer reference. -/
def CompactHeightfield.boundaryReference (chf : CompactHeightfield) : List Nat :=
  (chf.spanTriples chf.gridPositions).foldl chf.boundaryReferenceAt
    (List.replicate chf.spans.length 65535)

/-- The two-pass chamfer reference of the claim: all spans start at
`u16::MAX`; boundary spans get 0; the forward pass relaxes against
directions 0 and 3 and the diagonals `(-1,-1)` and `(+1,-1)`, the backward
pass against 2 and 1 and the diagonals `(+1,+1)` and `(-1,+1)`, with exact
cost 2 for axis steps and 3 for diagonal steps. -/
def CompactHeightfield.chamfer_reference (chf : CompactHeightfield) : List Nat :=
  relax_fold relax_exact chf.pass2Steps
    (relax_fold relax_exact chf.pass1Steps chf.boundaryReference)

/-- Exact relaxation fold that also tracks whether every executed `u16`
addition fits. -/
def ckRelaxFold (steps : List (Nat × Nat × Nat)) (s : List Nat × Bool) : List Nat × Bool :=
  steps.foldl
    (fun p st => (relax_exact p.1 st.1 st.2.1 st.2.2, p.2 && relax_ok p.1 st.2.1 st.2.2)) s

/-- The checked run of `calculate_distance_field`: exact distance values
plus a flag recording that no executed `u16` addition overflowed. -/
def CompactHeightfield.calc_checked (chf : CompactHeightfield) : List Nat × Bool :=
  ckRelaxFold chf.pass2Steps (ckRelaxFold chf.pass1Steps (chf.boundaryPhase, true))

/-! ### C5: the distance field equals the chamfer reference -/

/-- A counting fold is a `countP`. -/
theorem foldl_count_eq_countP {α : Type} (p : α → Bool) :
    ∀ (l : List α) (n : Nat),
      l.foldl (fun cnt a => if p a then cnt + 1 else cnt) n = n + l.countP p := by
  intro l
  induction l with
  | nil => intro n; simp
  | cons a rest ih =>
    intro n
    rw [List.foldl_cons, List.countP_cons, ih]
    by_cases h : p a = true <;> simp [h] <;> omega

/-- The source's `connection_count` accumulation counts exactly the
directions with a connected same-area neighbour. -/
theorem connection_count_eq_countP (chf : CompactHeightfield) (x z i : Nat) :
    chf.connection_count x z i = (List.range 4).countP (chf.connected_same_area x z i) := by
  unfold CompactHeightfield.connection_count
  have hfun : (fun (cnt : Nat) (dir : Nat) =>
      match (chf.spans.getD i default).con dir with
      | some con =>
        if chf.areas.getD i 0 = chf.areas.getD (chf.con_index x z dir con) 0 then cnt + 1
        else cnt
      | none => cnt) =
      (fun (cnt : Nat) (dir : Nat) =>
        if chf.connected_same_area x z i dir then cnt + 1 else cnt) := by
    funext cnt dir
    unfold CompactHeightfield.connected_same_area
    cases hcon : (chf.spans.getD i default).con dir with
    | some con => simp only [hcon]; split <;> simp_all
    | none => simp only [hcon, Bool.false_eq_true, if_false]
  rw [hfun, foldl_count_eq_countP, Nat.zero_add]

/-- The two phrasings of the boundary step agree. -/
theorem markBoundaryAt_eq_ref (chf : CompactHeightfield) :
    chf.markBoundaryAt = chf.boundaryReferenceAt := by
  funext df t
  unfold CompactHeightfield.markBoundaryAt CompactHeightfield.boundaryReferenceAt
  rw [connection_count_eq_countP]

/-- The two phrasings of the boundary phase agree. -/
theorem boundaryPhase_eq_ref (chf : CompactHeightfield) :
    chf.boundaryPhase = chf.boundaryReference := by
  unfold CompactHeightfield.boundaryPhase CompactHeightfield.boundaryReference
  rw [markBoundaryAt_eq_ref]

/-- A failed overflow flag never recovers. -/
theorem ckRelaxFold_false :
    ∀ (steps : List (Nat × Nat × Nat)) (s : List Nat × Bool),
      s.2 = false → (ckRelaxFold steps s).2 = false := by
  intro steps
  induction steps with
  | nil => intro s h; exact h
  | cons st rest ih =>
    intro s h
    unfold ckRelaxFold
    rw [List.foldl_cons]
    exact ih _ (by rw [h]; rfl)

/-- When the executed addition fits, the wrapping and exact relaxations
agree. -/
theorem relax_agree (df : List Nat) (i a c : Nat) (h : relax_ok df a c = true) :
    relax_u16 df i a c = relax_exact df i a c := by
  unfold relax_u16 relax_exact
  unfold relax_ok at h
  rw [Nat.mod_eq_of_lt (of_decide_eq_true h)]

/-- If the checked run never overflows, both the wrapping code and the exact
reference compute its value. -/
theorem ckRelaxFold_agree :
    ∀ (steps : List (Nat × Nat × Nat)) (df : List Nat),
      (ckRelaxFold steps (df, true)).2 = true →
      relax_fold relax_u16 steps df = (ckRelaxFold steps (df, true)).1 ∧
        relax_fold relax_exact steps df = (ckRelaxFold steps (df, true)).1 := by
  intro steps
  induction steps with
  | nil => intro df _; exact ⟨rfl, rfl⟩
  | cons st rest ih =>
    intro df h
    have hstep : ckRelaxFold (st :: rest) (df, true) =
        ckRelaxFold rest (relax_exact df st.1 st.2.1 st.2.2,
          true && relax_ok df st.2.1 st.2.2) := rfl
    cases hok : relax_ok df st.2.1 st.2.2 with
    | false =>
      exfalso
      rw [hstep, hok] at h
      rw [ckRelaxFold_false rest _ (by rfl)] at h
      cases h
    | true =>
      rw [hstep, hok] at h
      obtain ⟨hw, he⟩ := ih (relax_exact df st.1 st.2.1 st.2.2) h
      have hfold : ∀ r, relax_fold r (st :: rest) df =
          relax_fold r rest (r df st.1 st.2.1 st.2.2) := fun r => rfl
      rw [hstep, hok]
      refine ⟨?_, ?_⟩
      · rw [hfold, relax_agree df st.1 st.2.1 st.2.2 hok]
        exact hw
      · rw [hfold]
        exact he

/-- C5: whenever no executed `u16` addition overflows (which holds for every
well-formed heightfield of realistic size, and is recorded by the checked
run), the unblurred distance field computed inside `build_distance_field`
equals the two-pass chamfer reference: `u16::MAX` initialisation, zero at
spans with fewer than 4 connected same-area neighbours, a forward pass over
directions 0 and 3 with diagonals `(-1,-1)`, `(+1,-1)` and a backward pass
over directions 2 and 1 with diagonals `(+1,+1)`, `(-1,+1)`, with cost 2 for
axis and 3 for diagonal steps. -/
theorem C5_distance_field_is_chamfer (chf : CompactHeightfield)
    (h : chf.calc_checked.2 = true) :
    chf.calculate_distance_field = chf.chamfer_reference := by
  unfold CompactHeightfield.calc_checked at h
  set p1 := ckRelaxFold chf.pass1Steps (chf.boundaryPhase, true) with hp1
  have h1 : p1.2 = true := by
    cases hb : p1.2 with
    | false =>
      exfalso
      have hpair : p1 = (p1.1, false) := by rw [← hb]
      rw [hpair, ckRelaxFold_false chf.pass2Steps _ (by rfl)] at h
      cases h
    | true => rfl
  obtain ⟨hw1, he1⟩ := ckRelaxFold_agree chf.pass1Steps chf.boundaryPhase h1
  have hpair1 : p1 = (p1.1, true) := by rw [← h1]
  rw [hpair1] at h
  obtain ⟨hw2, he2⟩ := ckRelaxFold_agree chf.pass2Steps p1.1 h
  unfold CompactHeightfield.calculate_distance_field CompactHeightfield.chamfer_reference
  rw [hw1, hw2, ← boundaryPhase_eq_ref, he1, he2]

/-- A concrete 2×1 heightfield with two mutually connected spans. -/
def chfTwoSpans : CompactHeightfield :=
  { width := 2
    height := 1
    aabb := ⟨⟨0, 0, 0⟩, ⟨2, 1, 1⟩⟩
    cell_size := 1
    cell_height := 1
    cells := [⟨0, 1⟩, ⟨1, 1⟩]
    spans := [⟨0, 10, none, none, some 0, none⟩, ⟨0, 10, some 0, none, none, none⟩]
    areas := [1, 1]
    dist := []
    max_distance := 0 }

/-- C5 witness: on a concrete heightfield the checked run reports no
overflow, and the code field equals the chamfer reference. -/
theorem C5_witness :
    chfTwoSpans.calc_checked.2 = true ∧
      chfTwoSpans.calculate_distance_field = chfTwoSpans.chamfer_reference :=
  ⟨by decide, C5_distance_field_is_chamfer chfTwoSpans (by decide)⟩

/-! ### Box blur and `build_distance_field` -/

/-- The box-blur accumulation of the source for span `i` at `(x, z)`:
start at `cd`, and for every direction add the axis neighbour's value and
the diagonal value through `con((dir + 1) & 3)` — substituting `cd` for a
missing diagonal and `2·cd` for a missing axis neighbour — then return
`((d + 5) / 9) as u16` (source lines 272–302; `(dir + 1) & 0x3` is written
`% 4`). -/
def CompactHeightfield.blur_dir_add (chf : CompactHeightfield) (df : List Nat)
    (x z i : Nat) (d dir : Nat) : Nat :=
  match (chf.spans.getD i default).con dir with
  | some con =>
    let ax := nb_x x dir
    let az := nb_z z dir
    let aIndex := (chf.cell_at ax az).index + con
    let d := d + df.getD aIndex 0
    let dir2 := (dir + 1) % 4
    match (chf.spans.getD aIndex default).con dir2 with
    | some con2 =>
      d + df.getD ((chf.cell_at (nb_x ax dir2) (nb_z az dir2)).index + con2) 0
    | none => d + df.getD i 0
  | none => d + df.getD i 0 * 2

/-- The complete blur value of one span:
`(cd accumulated over the four directions + 5) / 9` cast to `u16`. -/
def CompactHeightfield.blur_value (chf : CompactHeightfield) (df : List Nat)
    (x z i : Nat) : Nat :=
  (((List.range 4).foldl (chf.blur_dir_add df x z i) (df.getD i 0) + 5) / 9) % 65536

/-- `CompactHeightfield::box_blur`: the threshold is doubled with a
saturating `u16` multiplication; spans at or below it keep their value, the
others get the nine-tap average. -/
def CompactHeightfield.box_blur (chf : CompactHeightfield) (threshold : Nat)
    (df : List Nat) : List Nat :=
  let threshold := min (threshold * 2) 65535
  (chf.spanTriples chf.gridPositions).foldl
    (fun result t =>
      if df.getD t.2.2 0 ≤ threshold then result.set t.2.2 (df.getD t.2.2 0)
      else result.set t.2.2 (chf.blur_value df t.1 t.2.1 t.2.2))
    (List.replicate df.length 0)

/-- `CompactHeightfield::build_distance_field`: compute the chamfer field,
record its maximum (`iter().max().unwrap_or_default()`), then store the
box-blurred field with threshold 1. -/
def CompactHeightfield.build_distance_field (chf : CompactHeightfield) : CompactHeightfield :=
  let distance_field := chf.calculate_distance_field
  { chf with
    max_distance := distance_field.foldl Max.max 0
    dist := chf.box_blur 1 distance_field }

/-- One direction's contribution to the blur tap sum, as the claim words it:
the axis neighbour's value plus the diagonal value, substituting the span's
own value `d` for a missing diagonal and `2·d` for a missing axis
neighbour. -/
def CompactHeightfield.blur_tap (chf : CompactHeightfield) (df : List Nat)
    (x z i dir : Nat) : Nat :=
  match (chf.spans.getD i default).con dir with
  | some con =>
    let ax := nb_x x dir
    let az := nb_z z dir
    let aIndex := (chf.cell_at ax az).index + con
    let dir2 := (dir + 1) % 4
    df.getD aIndex 0 +
      (match (chf.spans.getD aIndex default).con dir2 with
       | some con2 => df.getD ((chf.cell_at (nb_x ax dir2) (nb_z az dir2)).index + con2) 0
       | none => df.getD i 0)
  | none => 2 * df.getD i 0

/-- The blurred value of one span per the claim: a span with unblurred value
`d ≤ 2` keeps `d`, the others get `(d + sum of the eight neighbour taps + 5)
/ 9`. -/
def CompactHeightfield.blur_reference_value (chf : CompactHeightfield) (df : List Nat)
    (x z i : Nat) : Nat :=
  let d := df.getD i 0
  if d ≤ 2 then d
  else (d + ((List.range 4).map (chf.blur_tap df x z i)).sum + 5) / 9

/-- The grid positions whose cell contains span index `i`. -/
def CompactHeightfield.ownerList (chf : CompactHeightfield) (i : Nat) : List (Nat × Nat) :=
  chf.gridPositions.filter (fun p => decide (i ∈ chf.cellSpanIndices p.1 p.2))

/-! ### C6 proof machinery -/

/-- `getD` after `set` at the same in-bounds index. -/
theorem getD_set_self {α : Type} (l : List α) (i : Nat) (x d : α) (h : i < l.length) :
    (l.set i x).getD i d = x := by
  rw [List.getD_eq_getElem?_getD, List.getElem?_set_self h]
  rfl

/-- `getD` after `set` at a different index. -/
theorem getD_set_ne {α : Type} (l : List α) (i j : Nat) (x d : α) (h : i ≠ j) :
    (l.set i x).getD j d = l.getD j d := by
  rw [List.getD_eq_getElem?_getD, List.getElem?_set_ne h, ← List.getD_eq_getElem?_getD]

/-- A fold whose steps preserve the length preserves the length. -/
theorem fold_length_inv {σ : Type} (step : List Nat → σ → List Nat)
    (hstep : ∀ df t, (step df t).length = df.length) :
    ∀ (l : List σ) (df : List Nat), (l.foldl step df).length = df.length := by
  intro l
  induction l with
  | nil => intro df; rfl
  | cons t rest ih => intro df; rw [List.foldl_cons, ih, hstep]

/-- A fold whose steps preserve an elementwise bound preserves it. -/
theorem fold_bound {σ : Type} (step : List Nat → σ → List Nat) (B : Nat)
    (hstep : ∀ df t, (∀ v ∈ df, v < B) → ∀ v ∈ step df t, v < B) :
    ∀ (l : List σ) (df : List Nat), (∀ v ∈ df, v < B) → ∀ v ∈ l.foldl step df, v < B := by
  intro l
  induction l with
  | nil => intro df h; exact h
  | cons t rest ih => intro df h; exact ih _ (hstep df t h)

/-- Elementwise bounds transfer to `getD` with default 0. -/
theorem getD_bound (df : List Nat) (B : Nat) (hB : 0 < B)
    (h : ∀ v ∈ df, v < B) (j : Nat) : df.getD j 0 < B := by
  by_cases hj : j < df.length
  · rw [List.getD_eq_getElem _ _ hj]
    exact h _ (List.getElem_mem hj)
  · rw [List.getD_eq_default _ _ (Nat.le_of_not_lt hj)]
    exact hB

/-- Every value of the computed distance field fits in `u16`. -/
theorem calculate_distance_field_bound (chf : CompactHeightfield) :
    ∀ v ∈ chf.calculate_distance_field, v < 65536 := by
  unfold CompactHeightfield.calculate_distance_field
  have hrelax : ∀ (df : List Nat) (s : Nat × Nat × Nat), (∀ v ∈ df, v < 65536) →
      ∀ v ∈ relax_u16 df s.1 s.2.1 s.2.2, v < 65536 := by
    intro df s h v hv
    unfold relax_u16 at hv
    rcases List.mem_or_eq_of_mem_set hv with hmem | heq
    · exact h v hmem
    · rw [heq]
      exact Nat.lt_of_le_of_lt (Nat.min_le_right _ _) (Nat.mod_lt _ (by norm_num))
  have hboundary : ∀ v ∈ chf.boundaryPhase, v < 65536 := by
    unfold CompactHeightfield.boundaryPhase
    refine fold_bound _ 65536 ?_ _ _ ?_
    · intro df t h v hv
      unfold CompactHeightfield.markBoundaryAt at hv
      split at hv
      · rcases List.mem_or_eq_of_mem_set hv with hmem | heq
        · exact h v hmem
        · rw [heq]; norm_num
      · exact h v hv
    · intro v hv
      rw [List.eq_of_mem_replicate hv]
      norm_num
  exact fold_bound _ 65536 hrelax _ _ (fold_bound _ 65536 hrelax _ _ hboundary)

/-- The computed distance field has one entry per span. -/
theorem calculate_distance_field_length (chf : CompactHeightfield) :
    chf.calculate_distance_field.length = chf.spans.length := by
  unfold CompactHeightfield.calculate_distance_field
  have hrelax : ∀ (df : List Nat) (s : Nat × Nat × Nat),
      (relax_u16 df s.1 s.2.1 s.2.2).length = df.length := by
    intro df s
    unfold relax_u16
    exact List.length_set df _ _
  have hb : chf.boundaryPhase.length = chf.spans.length := by
    unfold CompactHeightfield.boundaryPhase
    rw [fold_length_inv _ ?_ _ _, List.length_replicate]
    intro df t
    unfold CompactHeightfield.markBoundaryAt
    split
    · exact List.length_set df _ _
    · rfl
  unfold relax_fold
  rw [fold_length_inv _ hrelax, fold_length_inv _ hrelax, hb]

/-- An additive fold is the sum of the mapped values. -/
theorem foldl_add_eq_sum {α : Type} (f : α → Nat) :
    ∀ (l : List α) (n : Nat), l.foldl (fun acc a => acc + f a) n = n + (l.map f).sum := by
  intro l
  induction l with
  | nil => intro n; simp
  | cons a rest ih => intro n; rw [List.foldl_cons, ih, List.map_cons, List.sum_cons]; omega

/-- One blur accumulation step adds the direction's tap. -/
theorem blur_dir_add_eq (chf : CompactHeightfield) (df : List Nat) (x z i d dir : Nat) :
    chf.blur_dir_add df x z i d dir = d + chf.blur_tap df x z i dir := by
  unfold CompactHeightfield.blur_dir_add CompactHeightfield.blur_tap
  cases hcon : (chf.spans.getD i default).con dir with
  | some con =>
    simp only [hcon]
    cases hcon2 : (chf.spans.getD ((chf.cell_at (nb_x x dir) (nb_z z dir)).index + con)
        default).con ((dir + 1) % 4) with
    | some con2 => simp only [hcon2]; omega
    | none => simp only [hcon2]; omega
  | none => simp only [hcon]; omega

/-- The source's blur accumulation is `cd` plus the tap sum of the claim. -/
theorem blur_value_fold_eq (chf : CompactHeightfield) (df : List Nat) (x z i : Nat) :
    chf.blur_value df x z i =
      ((df.getD i 0 + ((List.range 4).map (chf.blur_tap df x z i)).sum + 5) / 9) % 65536 := by
  unfold CompactHeightfield.blur_value
  rw [show chf.blur_dir_add df x z i = (fun d dir => d + chf.blur_tap df x z i dir) from
    funext fun d => funext fun dir => blur_dir_add_eq chf df x z i d dir, foldl_add_eq_sum]

/-- Each tap is at most `2 · 65535` when the field values fit in `u16`. -/
theorem blur_tap_bound (chf : CompactHeightfield) (df : List Nat)
    (hdf : ∀ v ∈ df, v < 65536) (x z i dir : Nat) :
    chf.blur_tap df x z i dir ≤ 2 * 65535 := by
  have hD : ∀ j, df.getD j 0 < 65536 := getD_bound df 65536 (by norm_num) hdf
  unfold CompactHeightfield.blur_tap
  cases hcon : (chf.spans.getD i default).con dir with
  | some con =>
    simp only
    cases hcon2 : (chf.spans.getD ((chf.cell_at (nb_x x dir) (nb_z z dir)).index + con)
        default).con ((dir + 1) % 4) with
    | some con2 =>
      simp only [hcon2]
      have h1 := hD ((chf.cell_at (nb_x x dir) (nb_z z dir)).index + con)
      have h2 := hD ((chf.cell_at (nb_x (nb_x x dir) ((dir + 1) % 4))
        (nb_z (nb_z z dir) ((dir + 1) % 4))).index + con2)
      omega
    | none =>
      simp only [hcon2]
      have h1 := hD ((chf.cell_at (nb_x x dir) (nb_z z dir)).index + con)
      have h2 := hD i
      omega
  | none =>
    simp only
    have := hD i
    omega

/-- With `u16`-bounded inputs the final `as u16` cast of the blur value is
the identity, and the source's blur value is the claim's nine-tap average. -/
theorem blur_value_eq_ref (chf : CompactHeightfield) (df : List Nat)
    (hdf : ∀ v ∈ df, v < 65536) (x z i : Nat) :
    chf.blur_value df x z i =
      (df.getD i 0 + ((List.range 4).map (chf.blur_tap df x z i)).sum + 5) / 9 := by
  rw [blur_value_fold_eq]
  have hcd : df.getD i 0 < 65536 := getD_bound df 65536 (by norm_num) hdf i
  have hsum : ((List.range 4).map (chf.blur_tap df x z i)).sum ≤ 4 * (2 * 65535) := by
    have h4 : (List.range 4) = [0, 1, 2, 3] := by decide
    rw [h4]
    simp only [List.map_cons, List.map_nil, List.sum_cons, List.sum_nil]
    have t0 := blur_tap_bound chf df hdf x z i 0
    have t1 := blur_tap_bound chf df hdf x z i 1
    have t2 := blur_tap_bound chf df hdf x z i 2
    have t3 := blur_tap_bound chf df hdf x z i 3
    omega
  exact Nat.mod_eq_of_lt (by omega)

/-- Maxima folds dominate their starting value. -/
theorem foldl_max_le_self : ∀ (l : List Nat) (n : Nat), n ≤ l.foldl Max.max n := by
  intro l
  induction l with
  | nil => intro n; exact Nat.le_refl n
  | cons a rest ih =>
    intro n
    exact Nat.le_trans (Nat.le_max_left n a) (ih (Max.max n a))

/-- Maxima folds dominate every member. -/
theorem foldl_max_ge_mem : ∀ (l : List Nat) (n v : Nat), v ∈ l → v ≤ l.foldl Max.max n := by
  intro l
  induction l with
  | nil => intro n v hv; cases hv
  | cons a rest ih =>
    intro n v hv
    rw [List.foldl_cons]
    rcases List.mem_cons.mp hv with rfl | hmem
    · exact Nat.le_trans (Nat.le_max_right n v) (foldl_max_le_self rest _)
    · exact ih _ v hmem

/-- A maxima fold returns a member or its starting value. -/
theorem foldl_max_mem_or : ∀ (l : List Nat) (n : Nat),
    l.foldl Max.max n ∈ l ∨ l.foldl Max.max n = n := by
  intro l
  induction l with
  | nil => intro n; exact Or.inr rfl
  | cons a rest ih =>
    intro n
    rw [List.foldl_cons]
    rcases ih (Max.max n a) with hmem | heq
    · exact Or.inl (List.mem_cons_of_mem a hmem)
    · rcases max_choice n a with hc | hc
      · rw [heq, hc]; exact Or.inr rfl
      · rw [heq, hc]; exact Or.inl (List.mem_cons_self _ _)

/-- Characterisation of a fold of writes: the value at `i` is the last
written value among the steps targeting `i`, or the initial value. -/
theorem fold_set_char {ι : Type} (idx : ι → Nat) (val : ι → Nat)
    (step : List Nat → ι → List Nat) (hstep : ∀ r t, step r t = r.set (idx t) (val t)) :
    ∀ (L : List ι) (init : List Nat) (i : Nat), i < init.length →
      (L.foldl step init).getD i 0 =
        (L.filter (fun t => decide (idx t = i))).foldl (fun _ t => val t) (init.getD i 0) := by
  intro L
  induction L with
  | nil => intro init i h; rfl
  | cons t rest ih =>
    intro init i h
    rw [List.foldl_cons, List.filter_cons, hstep]
    by_cases hidx : idx t = i
    · rw [if_pos (decide_eq_true hidx), List.foldl_cons,
        ih (init.set (idx t) (val t)) i (by rw [List.length_set]; exact h)]
      have hget : (init.set (idx t) (val t)).getD i 0 = val t := by
        rw [← hidx]
        exact getD_set_self init (idx t) (val t) 0 (by rw [hidx]; exact h)
      rw [hget]
    · rw [if_neg (fun hc => hidx (of_decide_eq_true hc)),
        ih (init.set (idx t) (val t)) i (by rw [List.length_set]; exact h),
        getD_set_ne init (idx t) i (val t) 0 hidx]

/-- Filtering a duplicate-free list for one element. -/
theorem nodup_filter_singleton : ∀ (l : List Nat), l.Nodup → ∀ (i : Nat),
    l.filter (fun j => decide (j = i)) = if i ∈ l then [i] else [] := by
  intro l
  induction l with
  | nil => intro _ i; rfl
  | cons a rest ih =>
    intro hnd i
    rcases List.nodup_cons.mp hnd with ⟨ha, hrest⟩
    rw [List.filter_cons]
    by_cases hai : a = i
    · subst hai
      rw [if_pos (decide_eq_true rfl), if_pos (List.mem_cons_self a rest)]
      have hfil : rest.filter (fun j => decide (j = a)) = [] := by
        rw [List.filter_eq_nil_iff]
        intro x hx hdec
        exact ha ((of_decide_eq_true hdec) ▸ hx)
      rw [hfil]
    · rw [if_neg (fun hc => hai (of_decide_eq_true hc)), ih hrest i]
      by_cases hmem : i ∈ rest
      · rw [if_pos hmem, if_pos (List.mem_cons_of_mem a hmem)]
      · rw [if_neg hmem, if_neg (fun hc => by
          rcases List.mem_cons.mp hc with hia | hir
          · exact hai hia.symm
          · exact hmem hir)]

/-- A flat map of conditional singletons is a mapped filter. -/
theorem flatMap_ite_singleton {α β : Type} (q : α → Bool) (g : α → β) :
    ∀ (l : List α), (l.flatMap (fun a => if q a then [g a] else [])) =
      (l.filter q).map g := by
  intro l
  induction l with
  | nil => rfl
  | cons a rest ih =>
    rw [List.flatMap_cons, List.filter_cons]
    by_cases hq : q a
    · simp only [hq, if_true, ih, List.map_cons]
      rfl
    · simp only [hq, Bool.false_eq_true, if_false, ih, List.nil_append]

/-- The span indices of one cell are duplicate-free. -/
theorem cellSpanIndices_nodup (chf : CompactHeightfield) (x z : Nat) :
    (chf.cellSpanIndices x z).Nodup := by
  unfold CompactHeightfield.cellSpanIndices
  exact (List.nodup_range _).map (fun a b hab => Nat.add_left_cancel hab)

/-- The triples of the row-major scan that target span `i` are exactly the
owners of `i`, paired with `i`. -/
theorem spanTriples_filter (chf : CompactHeightfield) (i : Nat) :
    (chf.spanTriples chf.gridPositions).filter (fun t => decide (t.2.2 = i)) =
      (chf.ownerList i).map (fun p => (p.1, p.2, i)) := by
  unfold CompactHeightfield.spanTriples CompactHeightfield.ownerList
  rw [List.filter_flatMap]
  have hcell : ∀ p : Nat × Nat,
      ((chf.cellSpanIndices p.1 p.2).map (fun j => (p.1, p.2, j))).filter
          (fun t => decide (t.2.2 = i)) =
        if decide (i ∈ chf.cellSpanIndices p.1 p.2) then [(p.1, p.2, i)] else [] := by
    intro p
    rw [List.filter_map]
    have hcomp : ((fun t : Nat × Nat × Nat => decide (t.2.2 = i)) ∘
        (fun j => (p.1, p.2, j))) = (fun j => decide (j = i)) := rfl
    rw [hcomp, nodup_filter_singleton _ (cellSpanIndices_nodup chf p.1 p.2) i]
    by_cases hmem : i ∈ chf.cellSpanIndices p.1 p.2
    · simp [hmem]
    · simp [hmem]
  have hstep : (fun p : Nat × Nat =>
      ((chf.cellSpanIndices p.1 p.2).map (fun j => (p.1, p.2, j))).filter
        (fun t => decide (t.2.2 = i))) =
      (fun p : Nat × Nat =>
        if decide (i ∈ chf.cellSpanIndices p.1 p.2) then [(p.1, p.2, i)] else []) :=
    funext hcell
  rw [hstep, flatMap_ite_singleton]

/-- `getD` on a replicated zero list is zero. -/
theorem getD_replicate_zero (n i : Nat) : (List.replicate n (0 : Nat)).getD i 0 = 0 := by
  by_cases h : i < n
  · rw [List.getD_eq_getElem _ _ (by rw [List.length_replicate]; exact h)]
    apply List.getElem_replicate
  · rw [List.getD_eq_default _ _ (by rw [List.length_replicate]; omega)]

/-- `box_blur 1` as a fold of plain writes (threshold `1` saturates to `2`,
and the two `set` branches commute with the `if`). -/
theorem box_blur_as_writes (chf : CompactHeightfield) (df : List Nat) :
    chf.box_blur 1 df = (chf.spanTriples chf.gridPositions).foldl
      (fun r t => r.set t.2.2 (if df.getD t.2.2 0 ≤ 2 then df.getD t.2.2 0
        else chf.blur_value df t.1 t.2.1 t.2.2))
      (List.replicate df.length 0) := by
  unfold CompactHeightfield.box_blur
  have hth : Min.min (1 * 2) 65535 = 2 := by norm_num
  simp only [hth]
  congr 1
  funext r t
  exact (apply_ite (r.set t.2.2) _ _ _).symm

/-- C6: after `build_distance_field`, `max_distance` is the maximum of the
unblurred chamfer field (0 when there are no spans), and the stored `dist`
is the box-blurred field: every span owned by a unique cell keeps its
unblurred value `d` when `d ≤ 2` (threshold 1, doubled) and otherwise gets
`(d + sum of the eight neighbour taps + 5) / 9`, where a missing diagonal
neighbour contributes `d` and a missing axis neighbour contributes `2·d`. -/
theorem C6_build_distance_field_blur (chf : CompactHeightfield) :
    ((∀ v ∈ chf.calculate_distance_field, v ≤ chf.build_distance_field.max_distance) ∧
      (chf.build_distance_field.max_distance ∈ chf.calculate_distance_field ∨
        chf.build_distance_field.max_distance = 0)) ∧
    (∀ i x0 z0, chf.ownerList i = [(x0, z0)] → i < chf.spans.length →
      chf.build_distance_field.dist.getD i 0 =
        chf.blur_reference_value chf.calculate_distance_field x0 z0 i) := by
  have hmd : chf.build_distance_field.max_distance =
      chf.calculate_distance_field.foldl Max.max 0 := rfl
  have hdist : chf.build_distance_field.dist =
      chf.box_blur 1 chf.calculate_distance_field := rfl
  refine ⟨⟨?_, ?_⟩, ?_⟩
  · intro v hv
    rw [hmd]
    exact foldl_max_ge_mem _ 0 v hv
  · rw [hmd]
    exact foldl_max_mem_or _ 0
  · intro i x0 z0 howner hlen
    have hlen2 : i < chf.calculate_distance_field.length := by
      rw [calculate_distance_field_length]; exact hlen
    rw [hdist, box_blur_as_writes,
      fold_set_char (fun t : Nat × Nat × Nat => t.2.2)
        (fun t => if chf.calculate_distance_field.getD t.2.2 0 ≤ 2 then
          chf.calculate_distance_field.getD t.2.2 0
        else chf.blur_value chf.calculate_distance_field t.1 t.2.1 t.2.2)
        _ (fun r t => rfl) _ _ i (by rw [List.length_replicate]; exact hlen2),
      spanTriples_filter chf i, howner, getD_replicate_zero]
    show (if chf.calculate_distance_field.getD i 0 ≤ 2 then
        chf.calculate_distance_field.getD i 0
      else chf.blur_value chf.calculate_distance_field x0 z0 i) = _
    unfold CompactHeightfield.blur_reference_value
    by_cases hc : chf.calculate_distance_field.getD i 0 ≤ 2
    · rw [if_pos hc, if_pos hc]
    · rw [if_neg hc, if_neg hc,
        blur_value_eq_ref chf _ (calculate_distance_field_bound chf) x0 z0 i]

/-- C6 witness: on the concrete two-span heightfield, the blurred value of
the span owned by cell (0,0) matches the claim's nine-tap formula. -/
theorem C6_witness :
    chfTwoSpans.ownerList 0 = [(0, 0)] ∧
      chfTwoSpans.build_distance_field.dist.getD 0 0 =
        chfTwoSpans.blur_reference_value chfTwoSpans.calculate_distance_field 0 0 0 :=
  ⟨by decide, (C6_build_distance_field_blur chfTwoSpans).2 0 0 0 (by decide) (by decide)⟩

/-! ### Convex-volume marking (src/crates/rerecast/src/mark_convex_poly_area.rs) -/

/-- A convex volume (`ConvexVolume`): XZ vertices, a world-space Y range and
the area to write. -/
structure ConvexVolume where
  vertices : List Vec2
  min_y : ℚ
  max_y : ℚ
  area : Nat
deriving DecidableEq, Inhabited

/-- `point_in_poly_fast`: the even-odd crossing test of the source.  The
fold state carries `inside` and the trailing vertex index `j`, which starts
at `len - 1`; the division is only meaningful under the guard, exactly as in
the source. -/
def point_in_poly_fast (point : Vec2) (vertices : List Vec2) : Bool :=
  ((List.range vertices.length).foldl
    (fun (st : Bool × Nat) i =>
      let vi := vertices.getD i default
      let vj := vertices.getD st.2 default
      let inside :=
        if (decide (vi.y > point.y) != decide (vj.y > point.y))
            && decide (point.x < (vj.x - vi.x) * (point.y - vi.y) / (vj.y - vi.y) + vi.x)
        then !st.1 else st.1
      (inside, i))
    (false, vertices.length - 1)).1

/-- The voxel footprint computed by `mark_convex_poly_area`: the polygon's
bounding box scaled into grid coordinates with `as i32` casts; `none` when
the vertex list is empty or the XZ box misses the grid.  The clamped X/Z
ranges `max(min,0) ..= min(max, extent-1)` are returned with exclusive `Nat`
upper ends `(min(max, extent-1) + 1).toNat`, which are empty exactly when
the `i32` ranges are; the Y voxel range is returned unclamped, as in the
source. -/
def CompactHeightfield.mark_footprint (chf : CompactHeightfield) (volume : ConvexVolume) :
    Option (Nat × Nat × Nat × Nat × Int × Int) :=
  match Aabb2d.from_verts volume.vertices with
  | none => none
  | some aabb2 =>
    let aabb := aabb2.extend_y volume.min_y volume.max_y
    let inverse_cell_size := 1 / chf.cell_size
    let inverse_cell_height := 1 / chf.cell_height
    let min_x := castI32 ((aabb.min.x - chf.aabb.min.x) * inverse_cell_size)
    let min_y := castI32 ((aabb.min.y - chf.aabb.min.y) * inverse_cell_height)
    let min_z := castI32 ((aabb.min.z - chf.aabb.min.z) * inverse_cell_size)
    let max_x := castI32 ((aabb.max.x - chf.aabb.min.x) * inverse_cell_size)
    let max_z := castI32 ((aabb.max.z - chf.aabb.min.z) * inverse_cell_size)
    if max_x < 0 ∨ min_x ≥ (chf.width : Int) ∨ max_z < 0 ∨ min_z ≥ (chf.height : Int) then
      none
    else
      some ((Max.max min_x 0).toNat, (Min.min max_x ((chf.width : Int) - 1) + 1).toNat,
        (Max.max min_z 0).toNat, (Min.min max_z ((chf.height : Int) - 1) + 1).toNat,
        min_y, castI32 ((aabb.max.y - chf.aabb.min.y) * inverse_cell_height))

/-- Rust `a..=b` over clamped nonnegative bounds, as a `Nat` range with an
exclusive upper end. -/
def natRangeEx (a b : Nat) : List Nat := (List.range (b - a)).map (fun k => a + k)

/-- The rectangle of footprint cells, row-major with `z` outer. -/
def markPositions (minx maxxE minz maxzE : Nat) : List (Nat × Nat) :=
  (natRangeEx minz maxzE).flatMap (fun z => (natRangeEx minx maxxE).map (fun x => (x, z)))

/-- The world-space centre of cell `(x, z)` on the XZ plane:
`aabb.min + (coord + 0.5) · cell_size`. -/
def CompactHeightfield.cell_center (chf : CompactHeightfield) (x z : Nat) : Vec2 :=
  ⟨chf.aabb.min.x + ((x : ℚ) + 1 / 2) * chf.cell_size,
   chf.aabb.min.z + ((z : ℚ) + 1 / 2) * chf.cell_size⟩

/-- The per-span step of `mark_convex_poly_area`: skip spans that are not
walkable or whose floor is outside the voxel Y range, otherwise overwrite
the area. -/
def CompactHeightfield.mark_span_step (chf : CompactHeightfield) (volume : ConvexVolume)
    (miny maxy : Int) (areas : List Nat) (i : Nat) : List Nat :=
  if ¬ area_is_walkable (areas.getD i 0) then areas
  else if ((chf.spans.getD i default).y : Int) < miny ∨
      ((chf.spans.getD i default).y : Int) > maxy then areas
  else areas.set i volume.area

/-- The per-cell step: test the cell centre against the polygon once per
cell, then visit the cell's spans. -/
def CompactHeightfield.mark_cell_step (chf : CompactHeightfield) (volume : ConvexVolume)
    (miny maxy : Int) (areas : List Nat) (p : Nat × Nat) : List Nat :=
  if ¬ point_in_poly_fast (chf.cell_center p.1 p.2) volume.vertices then areas
  else (chf.cellSpanIndices p.1 p.2).foldl (chf.mark_span_step volume miny maxy) areas

/-- `CompactHeightfield::mark_convex_poly_area`. -/
def CompactHeightfield.mark_convex_poly_area (chf : CompactHeightfield)
    (volume : ConvexVolume) : CompactHeightfield :=
  if volume.vertices.isEmpty then chf
  else
    match chf.mark_footprint volume with
    | none => chf
    | some (minx, maxxE, minz, maxzE, miny, maxy) =>
      { chf with
        areas := (markPositions minx maxxE minz maxzE).foldl
          (chf.mark_cell_step volume miny maxy) chf.areas }

/-- The claim's marking condition for span `i` owned by cell `(x, z)`: the
cell lies in the grid-clamped footprint of the volume, the cell centre
passes the even-odd test, the span was walkable before the call, and its
floor lies in the voxelised `[min_y, max_y]` range. -/
def CompactHeightfield.mark_condition (chf : CompactHeightfield) (volume : ConvexVolume)
    (x z i : Nat) : Bool :=
  match chf.mark_footprint volume with
  | none => false
  | some (minx, maxxE, minz, maxzE, miny, maxy) =>
    decide (minx ≤ x) && decide (x < maxxE) && decide (minz ≤ z) && decide (z < maxzE) &&
      point_in_poly_fast (chf.cell_center x z) volume.vertices &&
      area_is_walkable (chf.areas.getD i 0) &&
      decide (miny ≤ ((chf.spans.getD i default).y : Int)) &&
      decide (((chf.spans.getD i default).y : Int) ≤ maxy)

/-- `mark_convex_poly_area` returns the heightfield with (at most) the
`areas` field replaced. -/
theorem mark_convex_only_areas (chf : CompactHeightfield) (volume : ConvexVolume) :
    ∃ a, chf.mark_convex_poly_area volume = { chf with areas := a } := by
  unfold CompactHeightfield.mark_convex_poly_area
  split
  · exact ⟨chf.areas, rfl⟩
  · split
    · exact ⟨chf.areas, rfl⟩
    · exact ⟨_, rfl⟩

/-- C8: calling `mark_convex_poly_area` with an empty vertex list is a
no-op — the entire `CompactHeightfield`, including every span's area, is
unchanged (the source returns before the `len - 1` underflow of the
point-in-polygon test can occur). -/
theorem C8_empty_volume_noop (chf : CompactHeightfield) (volume : ConvexVolume)
    (h : volume.vertices = []) : chf.mark_convex_poly_area volume = chf := by
  unfold CompactHeightfield.mark_convex_poly_area
  rw [h]
  rfl

/-- C10: `mark_convex_poly_area` modifies at most `areas` — the spans,
cells, dist, max_distance, width, height, aabb, cell_size and cell_height
fields are identical before and after the call. -/
theorem C10_mark_convex_frame (chf : CompactHeightfield) (volume : ConvexVolume) :
    (chf.mark_convex_poly_area volume).spans = chf.spans ∧
    (chf.mark_convex_poly_area volume).cells = chf.cells ∧
    (chf.mark_convex_poly_area volume).dist = chf.dist ∧
    (chf.mark_convex_poly_area volume).max_distance = chf.max_distance ∧
    (chf.mark_convex_poly_area volume).width = chf.width ∧
    (chf.mark_convex_poly_area volume).height = chf.height ∧
    (chf.mark_convex_poly_area volume).aabb = chf.aabb ∧
    (chf.mark_convex_poly_area volume).cell_size = chf.cell_size ∧
    (chf.mark_convex_poly_area volume).cell_height = chf.cell_height := by
  obtain ⟨a, ha⟩ := mark_convex_only_areas chf volume
  rw [ha]
  exact ⟨rfl, rfl, rfl, rfl, rfl, rfl, rfl, rfl, rfl⟩

/-- A 1×1-cell heightfield with one walkable span. -/
def chfMark : CompactHeightfield :=
  { width := 1
    height := 1
    aabb := ⟨⟨0, 0, 0⟩, ⟨1, 1, 1⟩⟩
    cell_size := 1
    cell_height := 1
    cells := [⟨0, 1⟩]
    spans := [⟨0, 10, none, none, none, none⟩]
    areas := [1]
    dist := [0]
    max_distance := 0 }

/-- A square volume covering the cell, with area 63. -/
def volSquare : ConvexVolume :=
  { vertices := [⟨0, 0⟩, ⟨2, 0⟩, ⟨2, 2⟩, ⟨0, 2⟩]
    min_y := 0
    max_y := 1
    area := 63 }

/-- A volume with an empty vertex list. -/
def volEmpty : ConvexVolume := { vertices := [], min_y := 0, max_y := 1, area := 63 }

/-- C8 witness: the empty-vertex volume leaves a concrete heightfield
unchanged. -/
theorem C8_witness : chfMark.mark_convex_poly_area volEmpty = chfMark :=
  C8_empty_volume_noop chfMark volEmpty rfl

/-! ### C7 proof machinery -/

/-- Membership in a clamped range. -/
theorem mem_natRangeEx (a b x : Nat) : x ∈ natRangeEx a b ↔ a ≤ x ∧ x < b := by
  unfold natRangeEx
  rw [List.mem_map]
  constructor
  · rintro ⟨k, hk, rfl⟩
    rw [List.mem_range] at hk
    omega
  · rintro ⟨h1, h2⟩
    exact ⟨x - a, List.mem_range.mpr (by omega), by omega⟩

/-- Clamped ranges are duplicate-free. -/
theorem natRangeEx_nodup (a b : Nat) : (natRangeEx a b).Nodup :=
  (List.nodup_range _).map (fun x y h => by omega)

/-- Membership in the footprint rectangle. -/
theorem mem_markPositions (minx maxxE minz maxzE : Nat) (p : Nat × Nat) :
    p ∈ markPositions minx maxxE minz maxzE ↔
      minx ≤ p.1 ∧ p.1 < maxxE ∧ minz ≤ p.2 ∧ p.2 < maxzE := by
  unfold markPositions
  rw [List.mem_flatMap]
  constructor
  · rintro ⟨z, hz, hmem⟩
    rcases List.mem_map.mp hmem with ⟨x, hx, rfl⟩
    rcases (mem_natRangeEx _ _ _).mp hz with ⟨hz1, hz2⟩
    rcases (mem_natRangeEx _ _ _).mp hx with ⟨hx1, hx2⟩
    exact ⟨hx1, hx2, hz1, hz2⟩
  · rintro ⟨h1, h2, h3, h4⟩
    exact ⟨p.2, (mem_natRangeEx _ _ _).mpr ⟨h3, h4⟩,
      List.mem_map.mpr ⟨p.1, (mem_natRangeEx _ _ _).mpr ⟨h1, h2⟩, rfl⟩⟩

/-- Rectangles of distinct coordinates are duplicate-free. -/
theorem nodup_prod_pairs (xs : List Nat) (hxs : xs.Nodup) :
    ∀ (zs : List Nat), zs.Nodup →
      (zs.flatMap (fun z => xs.map (fun x => (x, z)))).Nodup := by
  intro zs
  induction zs with
  | nil => intro _; exact List.nodup_nil
  | cons z rest ih =>
    intro hzs
    rcases List.nodup_cons.mp hzs with ⟨hz, hrest⟩
    rw [List.flatMap_cons, List.nodup_append]
    refine ⟨hxs.map (fun a b hab => congrArg Prod.fst hab), ih hrest, ?_⟩
    intro q hq1 hq2
    rcases List.mem_map.mp hq1 with ⟨x, hx, rfl⟩
    rcases List.mem_flatMap.mp hq2 with ⟨z', hz', hmem⟩
    rcases List.mem_map.mp hmem with ⟨x', hx', heq⟩
    have hzz : z' = z := congrArg Prod.snd heq
    exact hz (hzz ▸ hz')

/-- The footprint rectangle is duplicate-free. -/
theorem markPositions_nodup (minx maxxE minz maxzE : Nat) :
    (markPositions minx maxxE minz maxzE).Nodup :=
  nodup_prod_pairs _ (natRangeEx_nodup minx maxxE) _ (natRangeEx_nodup minz maxzE)

/-- Membership in the grid traversal. -/
theorem mem_gridPositions (chf : CompactHeightfield) (p : Nat × Nat) :
    p ∈ chf.gridPositions ↔ p.1 < chf.width ∧ p.2 < chf.height := by
  unfold CompactHeightfield.gridPositions
  rw [List.mem_flatMap]
  constructor
  · rintro ⟨z, hz, hmem⟩
    rcases List.mem_map.mp hmem with ⟨x, hx, rfl⟩
    exact ⟨List.mem_range.mp hx, List.mem_range.mp hz⟩
  · rintro ⟨h1, h2⟩
    exact ⟨p.2, List.mem_range.mpr h2, List.mem_map.mpr ⟨p.1, List.mem_range.mpr h1, rfl⟩⟩

/-- A fold whose steps leave index `i` alone leaves `getD i` alone. -/
theorem foldl_getD_inv {σ : Type} (step : List Nat → σ → List Nat) (i : Nat) :
    ∀ (l : List σ) (s : List Nat),
      (∀ s' t, t ∈ l → (step s' t).getD i 0 = s'.getD i 0) →
      (l.foldl step s).getD i 0 = s.getD i 0 := by
  intro l
  induction l with
  | nil => intro s _; rfl
  | cons t rest ih =>
    intro s h
    rw [List.foldl_cons, ih _ (fun s' t' ht' => h s' t' (List.mem_cons_of_mem _ ht')),
      h s t (List.mem_cons_self _ _)]

/-- The per-span step preserves the length. -/
theorem mark_span_step_length (chf : CompactHeightfield) (vol : ConvexVolume)
    (miny maxy : Int) (areas : List Nat) (j : Nat) :
    (chf.mark_span_step vol miny maxy areas j).length = areas.length := by
  unfold CompactHeightfield.mark_span_step
  split
  · rfl
  · split
    · rfl
    · exact List.length_set _ _ _

/-- The per-span step writes only its own index. -/
theorem mark_span_step_getD_ne (chf : CompactHeightfield) (vol : ConvexVolume)
    (miny maxy : Int) (areas : List Nat) (j i : Nat) (h : j ≠ i) :
    (chf.mark_span_step vol miny maxy areas j).getD i 0 = areas.getD i 0 := by
  unfold CompactHeightfield.mark_span_step
  split
  · rfl
  · split
    · rfl
    · exact getD_set_ne areas j i _ 0 h

/-- The per-cell span loop sets a visited span's area exactly when the span
is walkable and its floor lies in the voxel Y range. -/
theorem mark_span_fold_char (chf : CompactHeightfield) (vol : ConvexVolume)
    (miny maxy : Int) :
    ∀ (l : List Nat) (areas : List Nat) (i : Nat), l.Nodup → i ∈ l → i < areas.length →
      (l.foldl (chf.mark_span_step vol miny maxy) areas).getD i 0 =
        if area_is_walkable (areas.getD i 0) = true ∧
            miny ≤ ((chf.spans.getD i default).y : Int) ∧
            ((chf.spans.getD i default).y : Int) ≤ maxy
        then vol.area else areas.getD i 0 := by
  intro l
  induction l with
  | nil => intro areas i _ hmem _; cases hmem
  | cons j rest ih =>
    intro areas i hnd hmem hlen
    rcases List.nodup_cons.mp hnd with ⟨hj, hrest⟩
    rw [List.foldl_cons]
    rcases List.mem_cons.mp hmem with heq | hmem2
    · subst heq
      have hframe : (rest.foldl (chf.mark_span_step vol miny maxy)
          (chf.mark_span_step vol miny maxy areas i)).getD i 0 =
          (chf.mark_span_step vol miny maxy areas i).getD i 0 :=
        foldl_getD_inv _ i rest _ (fun s' t ht =>
          mark_span_step_getD_ne chf vol miny maxy s' t i (fun he => hj (he ▸ ht)))
      rw [hframe]
      unfold CompactHeightfield.mark_span_step
      by_cases hw : area_is_walkable (areas.getD i 0) = true
      · rw [if_neg (not_not_intro hw)]
        by_cases hy : ((chf.spans.getD i default).y : Int) < miny ∨
            ((chf.spans.getD i default).y : Int) > maxy
        · rw [if_pos hy, if_neg (fun hc => by rcases hy with h1 | h1 <;> omega)]
        · rw [if_neg hy, getD_set_self areas i vol.area 0 hlen,
            if_pos ⟨hw, by omega, by omega⟩]
      · rw [if_pos hw, if_neg (fun hc => hw hc.1)]
    · have hji : j ≠ i := fun he => hj (he ▸ hmem2)
      have hfr : (chf.mark_span_step vol miny maxy areas j).getD i 0 = areas.getD i 0 :=
        mark_span_step_getD_ne chf vol miny maxy areas j i hji
      rw [ih (chf.mark_span_step vol miny maxy areas j) i hrest hmem2
        (by rw [mark_span_step_length]; exact hlen), hfr]

/-- The per-cell step preserves the length. -/
theorem mark_cell_step_length (chf : CompactHeightfield) (vol : ConvexVolume)
    (miny maxy : Int) (areas : List Nat) (p : Nat × Nat) :
    (chf.mark_cell_step vol miny maxy areas p).length = areas.length := by
  unfold CompactHeightfield.mark_cell_step
  split
  · rfl
  · exact fold_length_inv _ (fun df t => mark_span_step_length chf vol miny maxy df t) _ _

/-- The per-cell step does not touch spans of other cells. -/
theorem mark_cell_step_frame (chf : CompactHeightfield) (vol : ConvexVolume)
    (miny maxy : Int) (areas : List Nat) (p : Nat × Nat) (i : Nat)
    (h : i ∉ chf.cellSpanIndices p.1 p.2) :
    (chf.mark_cell_step vol miny maxy areas p).getD i 0 = areas.getD i 0 := by
  unfold CompactHeightfield.mark_cell_step
  split
  · rfl
  · exact foldl_getD_inv _ i _ _ (fun s' t ht =>
      mark_span_step_getD_ne chf vol miny maxy s' t i (fun he => h (he ▸ ht)))

/-- Characterisation of the whole marking fold at a span owned by a unique
cell `(x0, z0)`. -/
theorem mark_cell_fold_char (chf : CompactHeightfield) (vol : ConvexVolume)
    (miny maxy : Int) (x0 z0 : Nat) :
    ∀ (L : List (Nat × Nat)) (areas : List Nat) (i : Nat),
      L.Nodup →
      (∀ p ∈ L, i ∈ chf.cellSpanIndices p.1 p.2 → p = (x0, z0)) →
      i ∈ chf.cellSpanIndices x0 z0 →
      i < areas.length →
      (L.foldl (chf.mark_cell_step vol miny maxy) areas).getD i 0 =
        if ((x0, z0) ∈ L ∧ point_in_poly_fast (chf.cell_center x0 z0) vol.vertices = true ∧
            area_is_walkable (areas.getD i 0) = true ∧
            miny ≤ ((chf.spans.getD i default).y : Int) ∧
            ((chf.spans.getD i default).y : Int) ≤ maxy)
        then vol.area else areas.getD i 0 := by
  intro L
  induction L with
  | nil =>
    intro areas i _ _ _ _
    rw [if_neg (fun hc => by cases hc.1)]
    rfl
  | cons p rest ih =>
    intro areas i hnd huniq hown hlen
    rcases List.nodup_cons.mp hnd with ⟨hp_rest, hrest⟩
    rw [List.foldl_cons]
    by_cases hp : p = (x0, z0)
    · subst hp
      have hrestfree : ∀ p' ∈ rest, i ∉ chf.cellSpanIndices p'.1 p'.2 := by
        intro p' hp' hip'
        exact hp_rest ((huniq p' (List.mem_cons_of_mem _ hp') hip') ▸ hp')
      have hframe : (rest.foldl (chf.mark_cell_step vol miny maxy)
          (chf.mark_cell_step vol miny maxy areas (x0, z0))).getD i 0 =
          (chf.mark_cell_step vol miny maxy areas (x0, z0)).getD i 0 :=
        foldl_getD_inv _ i rest _ (fun s' t ht =>
          mark_cell_step_frame chf vol miny maxy s' t i (hrestfree t ht))
      rw [hframe]
      unfold CompactHeightfield.mark_cell_step
      by_cases hpoly : point_in_poly_fast (chf.cell_center x0 z0) vol.vertices = true
      · rw [if_neg (not_not_intro hpoly)]
        rw [mark_span_fold_char chf vol miny maxy _ areas i
          (cellSpanIndices_nodup chf x0 z0) hown hlen]
        by_cases hc : area_is_walkable (areas.getD i 0) = true ∧
            miny ≤ ((chf.spans.getD i default).y : Int) ∧
            ((chf.spans.getD i default).y : Int) ≤ maxy
        · rw [if_pos hc, if_pos ⟨List.mem_cons_self _ _, hpoly, hc.1, hc.2.1, hc.2.2⟩]
        · rw [if_neg hc, if_neg (fun hcc => hc ⟨hcc.2.2.1, hcc.2.2.2.1, hcc.2.2.2.2⟩)]
      · rw [if_pos hpoly]
        rw [if_neg (fun hcc => hpoly hcc.2.1)]
    · have hip : i ∉ chf.cellSpanIndices p.1 p.2 :=
        fun hip => hp (huniq p (List.mem_cons_self _ _) hip)
      have hfr : (chf.mark_cell_step vol miny maxy areas p).getD i 0 = areas.getD i 0 :=
        mark_cell_step_frame chf vol miny maxy areas p i hip
      rw [ih (chf.mark_cell_step vol miny maxy areas p) i hrest
        (fun p' hp' => huniq p' (List.mem_cons_of_mem _ hp'))
        hown (by rw [mark_cell_step_length]; exact hlen), hfr]
      have hmemiff : ((x0, z0) ∈ rest) ↔ ((x0, z0) ∈ p :: rest) := by
        rw [List.mem_cons]
        constructor
        · exact Or.inr
        · rintro (he | hm)
          · exact absurd he.symm hp
          · exact hm
      rw [if_congr (and_congr_left' hmemiff) rfl rfl]

/-- The clamped footprint never leaves the grid. -/
theorem mark_footprint_bounds (chf : CompactHeightfield) (vol : ConvexVolume)
    (minx maxxE minz maxzE : Nat) (miny maxy : Int)
    (h : chf.mark_footprint vol = some (minx, maxxE, minz, maxzE, miny, maxy)) :
    maxxE ≤ chf.width ∧ maxzE ≤ chf.height := by
  unfold CompactHeightfield.mark_footprint at h
  cases hfv : Aabb2d.from_verts vol.vertices with
  | none => rw [hfv] at h; cases h
  | some aabb2 =>
    rw [hfv] at h
    dsimp only at h
    split at h
    · cases h
    · injection h with h'
      simp only [Prod.mk.injEq] at h'
      obtain ⟨-, h2, -, h4, -, -⟩ := h'
      have hminx : Min.min (castI32 ((aabb2.extend_y vol.min_y vol.max_y).max.x -
          chf.aabb.min.x) * (1 / chf.cell_size)) ((chf.width : Int) - 1) ≤
          (chf.width : Int) - 1 := min_le_right _ _
      constructor
      · omega
      · have hminz : Min.min (castI32 ((aabb2.extend_y vol.min_y vol.max_y).max.z -
            chf.aabb.min.z) * (1 / chf.cell_size)) ((chf.height : Int) - 1) ≤
            (chf.height : Int) - 1 := min_le_right _ _
        omega

/-- C7: for a volume with a non-empty vertex list, `mark_convex_poly_area`
overwrites the area of a span owned by cell `(x0, z0)` with `volume.area`
exactly when, before the call, the span was walkable, its cell lies in the
grid-clamped XZ footprint of the volume, the cell centre is inside the
polygon by the even-odd crossing test, and the span's floor lies in the
voxelised Y range; all other spans keep their previous area. -/
theorem C7_mark_convex_poly_area_char (chf : CompactHeightfield) (vol : ConvexVolume)
    (i x0 z0 : Nat) (hv : vol.vertices ≠ [])
    (howner : chf.ownerList i = [(x0, z0)]) (hlen : i < chf.areas.length) :
    (chf.mark_convex_poly_area vol).areas.getD i 0 =
      if chf.mark_condition vol x0 z0 i = true then vol.area
      else chf.areas.getD i 0 := by
  have hmemown : (x0, z0) ∈ chf.ownerList i := by
    rw [howner]; exact List.mem_cons_self _ _
  have hgrid : (x0, z0) ∈ chf.gridPositions := (List.mem_filter.mp hmemown).1
  have hown : i ∈ chf.cellSpanIndices x0 z0 :=
    of_decide_eq_true (List.mem_filter.mp hmemown).2
  have huniq : ∀ p ∈ chf.gridPositions, i ∈ chf.cellSpanIndices p.1 p.2 → p = (x0, z0) := by
    intro p hp hip
    have hmem : p ∈ chf.ownerList i := List.mem_filter.mpr ⟨hp, decide_eq_true hip⟩
    rw [howner] at hmem
    rcases List.mem_cons.mp hmem with he | h0
    · exact he
    · cases h0
  have hne : vol.vertices.isEmpty = false := by
    cases hvv : vol.vertices with
    | nil => exact absurd hvv hv
    | cons a l => rfl
  unfold CompactHeightfield.mark_convex_poly_area CompactHeightfield.mark_condition
  rw [hne]
  simp only [Bool.false_eq_true, if_false]
  cases hfp : chf.mark_footprint vol with
  | none =>
    simp only [hfp]
    rw [if_neg (fun hc => Bool.false_ne_true hc)]
  | some fp =>
    obtain ⟨minx, maxxE, minz, maxzE, miny, maxy⟩ := fp
    simp only [hfp]
    show ((markPositions minx maxxE minz maxzE).foldl
        (chf.mark_cell_step vol miny maxy) chf.areas).getD i 0 = _
    obtain ⟨hbx, hbz⟩ := mark_footprint_bounds chf vol minx maxxE minz maxzE miny maxy hfp
    have huniqL : ∀ p ∈ markPositions minx maxxE minz maxzE,
        i ∈ chf.cellSpanIndices p.1 p.2 → p = (x0, z0) := by
      intro p hp hip
      refine huniq p ?_ hip
      rcases (mem_markPositions minx maxxE minz maxzE p).mp hp with ⟨-, h2, -, h4⟩
      exact (mem_gridPositions chf p).mpr ⟨Nat.lt_of_lt_of_le h2 hbx,
        Nat.lt_of_lt_of_le h4 hbz⟩
    rw [mark_cell_fold_char chf vol miny maxy x0 z0 _ chf.areas i
      (markPositions_nodup minx maxxE minz maxzE) huniqL hown hlen]
    have hiff : ((x0, z0) ∈ markPositions minx maxxE minz maxzE ∧
        point_in_poly_fast (chf.cell_center x0 z0) vol.vertices = true ∧
        area_is_walkable (chf.areas.getD i 0) = true ∧
        miny ≤ ((chf.spans.getD i default).y : Int) ∧
        ((chf.spans.getD i default).y : Int) ≤ maxy) ↔
        ((decide (minx ≤ x0) && decide (x0 < maxxE) && decide (minz ≤ z0) &&
          decide (z0 < maxzE) &&
          point_in_poly_fast (chf.cell_center x0 z0) vol.vertices &&
          area_is_walkable (chf.areas.getD i 0) &&
          decide (miny ≤ ((chf.spans.getD i default).y : Int)) &&
          decide (((chf.spans.getD i default).y : Int) ≤ maxy)) = true) := by
      rw [mem_markPositions]
      simp only [Bool.and_eq_true, decide_eq_true_eq]
      tauto
    rw [if_congr hiff rfl rfl]

/-- C7 witness: on a concrete 1×1 heightfield and a square volume covering
the cell, the theorem's hypotheses hold and yield the characterisation of
the marked area. -/
theorem C7_witness :
    (chfMark.mark_convex_poly_area volSquare).areas.getD 0 0 =
      if chfMark.mark_condition volSquare 0 0 0 = true then volSquare.area
      else chfMark.areas.getD 0 0 :=
  C7_mark_convex_poly_area_char chfMark volSquare 0 0 0
    (List.cons_ne_nil _ _) (by decide) (by decide)

end Rerecast
